import Mathlib

/-!
Formal model of the `rwlock-promise` library (`src/index.ts`).

The library provides a promise-based `Mutex` (exclusive lock) and an `RwLock`
built on top of it.  JavaScript is cooperatively scheduled: code between two
suspension points runs atomically.  We therefore embed each class as an
explicit state machine.  The environment drives it with events: the public
calls (`run`, `read`, `write`) and the later settlement (fulfilment or
rejection) of a handler that is mid-execution.  Every bookkeeping mutation the
source performs between two suspension points is one step of the machine.

Ghost history fields (`executing`, `startedList`, `submittedList`,
`settledList`, ...) record what happened; they are not consulted by the
transition logic, which mirrors the source code field by field
(`running`, `queue`, `remaining`, `tailFxList`, `batchDone`).
The `throw` statements of the source are modelled by a `crashed` flag.
-/

namespace RwlockPromise

/-- Observable actions emitted while the mutex mutates its state, in the order
the source code performs them: resolving/rejecting the caller's promise and
starting a queued handler. -/
inductive MObs where
  | settledCaller (h : Nat) (ok : Bool) (v : Nat)
  | startedHandler (h : Nat)
deriving DecidableEq, Repr

/-- State of a `Mutex<T>` from `src/index.ts`.  Fields `running`, `queue` and
`crashed` come from the source (`crashed` models the `throw` in `next()`);
the remaining fields are ghost history: which handlers are mid-execution,
and the order of submissions, starts and caller settlements. -/
structure MutexState where
  running : Bool
  queue : List Nat
  crashed : Bool
  executing : List Nat
  startedList : List Nat
  submittedList : List Nat
  settledList : List (Nat × Bool × Nat)
deriving DecidableEq, Repr

/-- Freshly constructed mutex: `running = false`, empty queue. -/
def MutexState.init : MutexState :=
  { running := false, queue := [], crashed := false, executing := []
    startedList := [], submittedList := [], settledList := [] }

/-- Source `isIdle()`: true iff no handler is currently running. -/
def MutexState.isIdle (s : MutexState) : Bool := !s.running

/-- Source `getQueueLength()`: waiting handlers, excluding the running one. -/
def MutexState.getQueueLength (s : MutexState) : Nat := s.queue.length

/-- Source `private next()`: throws if still running, otherwise shifts the
queue head and starts it (the started handler becomes mid-execution). -/
def mutexNext (s : MutexState) : MutexState × List MObs :=
  if s.running then ({ s with crashed := true }, [])
  else
    match s.queue with
    | [] => (s, [])
    | h :: rest =>
        ({ s with running := true, queue := rest,
                  executing := s.executing ++ [h],
                  startedList := s.startedList ++ [h] },
         [MObs.startedHandler h])

/-- Source `run(handler)`: pushes the work item, and if the mutex is not
running, calls `next()` synchronously inside the call. -/
def mutexRun (s : MutexState) (h : Nat) : MutexState × List MObs :=
  if s.crashed then (s, []) else
  let s1 := { s with queue := s.queue ++ [h],
                     submittedList := s.submittedList ++ [h] }
  if s1.running then (s1, []) else mutexNext s1

/-- First half of the settlement continuation in `run`:
`resolve(ret)` / `reject(err)` followed by `this.running = false`, i.e. the
state just before `this.next()` is invoked. -/
def mutexSettlePre (s : MutexState) (h : Nat) (ok : Bool) (v : Nat) : MutexState :=
  { s with executing := s.executing.erase h,
           settledList := s.settledList ++ [(h, ok, v)],
           running := false }

/-- Settlement of the mid-execution handler `h` with outcome `ok`/value `v`:
the `.then`/`.catch` continuation in `run` settles the caller's promise,
clears `running` and calls `next()`, all in one synchronous step. -/
def mutexSettle (s : MutexState) (h : Nat) (ok : Bool) (v : Nat) : MutexState × List MObs :=
  if s.crashed then (s, []) else
  if h ∈ s.executing then
    let p := mutexNext (mutexSettlePre s h ok v)
    (p.1, MObs.settledCaller h ok v :: p.2)
  else (s, [])

/-- Events driving a mutex: a `run` call, or the settlement of a handler. -/
inductive MEvent where
  | run (h : Nat)
  | settle (h : Nat) (ok : Bool) (v : Nat)
deriving DecidableEq, Repr

/-- One step of the mutex machine. -/
def mutexStep (s : MutexState) : MEvent → MutexState × List MObs
  | MEvent.run h => mutexRun s h
  | MEvent.settle h ok v => mutexSettle s h ok v

/-- Run a list of events from a state. -/
def mutexExec (s : MutexState) : List MEvent → MutexState
  | [] => s
  | e :: es => mutexExec (mutexStep s e).1 es

/-- States reachable from a freshly constructed mutex. -/
def MutexReachable (s : MutexState) : Prop :=
  ∃ es : List MEvent, mutexExec MutexState.init es = s

/-- Inductive invariant of the mutex machine. -/
structure MutexInv (s : MutexState) : Prop where
  notCrashed : s.crashed = false
  atMostOne : s.executing.length ≤ 1
  runIff : s.running = true ↔ s.executing ≠ []
  idleDrained : s.running = false → s.queue = []
  fifo : s.startedList ++ s.queue = s.submittedList

/-- Work items of the internal mutex of an `RwLock`: either the sealing work
item of a read batch (`tailFxList` identified by its allocation index) or a
write handler delegated by `write`. -/
inductive Item where
  | batch (b : Nat)
  | wr (w : Nat)
deriving DecidableEq, Repr

/-- Observable actions of the rwlock: a read/write handler starting, a
caller's promise settling, a batch's mutex work item being released
(`batchDone()` invoked). -/
inductive RObs where
  | startedRead (h : Nat)
  | startedWrite (w : Nat)
  | settledReadCaller (h : Nat) (ok : Bool) (v : Nat)
  | settledWriteCaller (w : Nat) (ok : Bool) (v : Nat)
  | batchReleased (b : Nat)
deriving DecidableEq, Repr

/-- State of an `RwLock<T>` from `src/index.ts` together with the state of its
internal mutex.  Source fields: `running`/`queue` (the internal `Mutex`),
`remaining`, `tailFxList` (batches named by allocation index, `none` for
`null`), `batchDone` (which batch's release callback is stored, `none` for
`null`), `members` (the contents of each allocated `fxList` array), and
`crashed` for the two `throw` statements.  Ghost fields: `curItem` (which
work item the mutex is currently executing), `execReads`/`execWrite`
(handlers mid-execution; each executing read is paired with the `fxList` its
completion callback captured), `startedBatches`, `batchSignalled` (batches
whose `batchDone()` has run), allocation counter `nextBatch`, and the
submission / start / settlement histories. -/
structure RwState where
  running : Bool
  queue : List Item
  remaining : Int
  tailFxList : Option Nat
  batchDone : Option Nat
  members : List (Nat × List Nat)
  crashed : Bool
  curItem : Option Item
  execReads : List (Nat × Nat)
  execWrite : Option Nat
  nextBatch : Nat
  startedBatches : List Nat
  batchSignalled : List Nat
  submittedReads : List Nat
  submittedWrites : List Nat
  startedReads : List Nat
  startedWrites : List Nat
  settledReads : List (Nat × Bool × Nat)
  settledWrites : List (Nat × Bool × Nat)
deriving DecidableEq, Repr

/-- Freshly constructed rwlock: idle mutex, `remaining = 0`,
`tailFxList = null`, `batchDone = null`. -/
def RwState.init : RwState :=
  { running := false, queue := [], remaining := 0, tailFxList := none
    batchDone := none, members := [], crashed := false, curItem := none
    execReads := [], execWrite := none, nextBatch := 0, startedBatches := []
    batchSignalled := [], submittedReads := [], submittedWrites := []
    startedReads := [], startedWrites := [], settledReads := []
    settledWrites := [] }

/-- Members stored for the batch list with allocation index `b`. -/
def mlookup (ms : List (Nat × List Nat)) (b : Nat) : List Nat :=
  match ms with
  | [] => []
  | (k, l) :: rest => if k = b then l else mlookup rest b

/-- The source's `this.tailFxList.push(vvvHandler)`: append `h` to batch `b`'s
member array. -/
def mpush (ms : List (Nat × List Nat)) (b : Nat) (h : Nat) : List (Nat × List Nat) :=
  match ms with
  | [] => []
  | (k, l) :: rest => if k = b then (k, l ++ [h]) :: rest else (k, l) :: mpush rest b h

/-- Starting a work item popped from the mutex queue (the `fx()` call inside
`next()`).  A write item starts its handler.  A batch item runs the sealing
closure: store `batchDone`, set `remaining := fxList.length`, and start every
member of the final membership concurrently. -/
def startItem (s : RwState) : Item → RwState × List RObs
  | Item.wr w =>
      ({ s with execWrite := some w, startedWrites := s.startedWrites ++ [w] },
       [RObs.startedWrite w])
  | Item.batch b =>
      let ms := mlookup s.members b
      ({ s with batchDone := some b,
                remaining := (ms.length : Int),
                execReads := s.execReads ++ ms.map (fun h => (h, b)),
                startedReads := s.startedReads ++ ms,
                startedBatches := s.startedBatches ++ [b] },
       ms.map RObs.startedRead)

/-- The internal mutex's `next()` specialised to rwlock work items. -/
def rwNext (s : RwState) : RwState × List RObs :=
  if s.running then ({ s with crashed := true }, [])
  else
    match s.queue with
    | [] => (s, [])
    | it :: rest =>
        startItem { s with running := true, curItem := some it, queue := rest } it

/-- The internal mutex's `run`: push the work item, and start it via `next()`
when the mutex is not running. -/
def rwMutexRun (s : RwState) (it : Item) : RwState × List RObs :=
  let s1 := { s with queue := s.queue ++ [it] }
  if s1.running then (s1, []) else rwNext s1

/-- Source `read(handler)`.  If `tailFxList` is `null`, allocate a fresh batch
holding `h` alone and submit its sealing work item to the mutex.  Otherwise,
if the mutex queue is non-empty, append `h` to the tail batch's member array;
if it is empty, increment `remaining` and start `h` immediately. -/
def rwRead (s : RwState) (h : Nat) : RwState × List RObs :=
  if s.crashed then (s, []) else
  let s0 := { s with submittedReads := s.submittedReads ++ [h] }
  match s0.tailFxList with
  | none =>
      let b := s0.nextBatch
      rwMutexRun { s0 with nextBatch := b + 1, tailFxList := some b,
                           members := s0.members ++ [(b, [h])] } (Item.batch b)
  | some b =>
      if 0 < s0.queue.length then
        ({ s0 with members := mpush s0.members b h }, [])
      else
        ({ s0 with remaining := s0.remaining + 1,
                   execReads := s0.execReads ++ [(h, b)],
                   startedReads := s0.startedReads ++ [h] },
         [RObs.startedRead h])

/-- Source `write(handler)`: set `tailFxList = null`, then delegate the
handler unchanged to the mutex's `run`. -/
def rwWrite (s : RwState) (w : Nat) : RwState × List RObs :=
  if s.crashed then (s, []) else
  rwMutexRun { s with tailFxList := none,
                      submittedWrites := s.submittedWrites ++ [w] } (Item.wr w)

/-- The source's `this.batchDone()` call (guarded by the
`batchDone === null` throw): resolving the sealing work item's promise makes
the mutex's settlement continuation clear `running` and call `next()`.
Resolving an already-resolved promise is a no-op. -/
def invokeBatchDone (s : RwState) : RwState × List RObs :=
  match s.batchDone with
  | none => ({ s with crashed := true }, [])
  | some d =>
      if d ∈ s.batchSignalled then (s, [])
      else
        let p := rwNext { s with batchSignalled := s.batchSignalled ++ [d],
                                 running := false, curItem := none }
        (p.1, RObs.batchReleased d :: p.2)

/-- Which batch list the completion callback of executing read `h`
captured (`fxList` in the source). -/
def pairLookup (l : List (Nat × Nat)) (h : Nat) : Option Nat :=
  match l with
  | [] => none
  | (x, b) :: rest => if x = h then some b else pairLookup rest h

/-- Remove the first executing-read entry for handler `h`. -/
def pairErase (l : List (Nat × Nat)) (h : Nat) : List (Nat × Nat) :=
  match l with
  | [] => []
  | (x, b) :: rest => if x = h then rest else (x, b) :: pairErase rest h

/-- Settlement of the executing read handler `h` with outcome `ok`/value `v`:
`vvvHandler` settles the caller's promise with the handler's own outcome, and
the attached completion callback decrements `remaining`; when it reaches zero
it resets `tailFxList` (only if it still points at the captured `fxList`) and
invokes `batchDone()`. -/
def rwReadSettle (s : RwState) (h : Nat) (ok : Bool) (v : Nat) : RwState × List RObs :=
  if s.crashed then (s, []) else
  match pairLookup s.execReads h with
  | none => (s, [])
  | some b =>
      let s1 := { s with execReads := pairErase s.execReads h,
                         settledReads := s.settledReads ++ [(h, ok, v)],
                         remaining := s.remaining - 1 }
      if s1.remaining = 0 then
        let s2 := if s1.tailFxList = some b then { s1 with tailFxList := none } else s1
        let p := invokeBatchDone s2
        (p.1, RObs.settledReadCaller h ok v :: p.2)
      else (s1, [RObs.settledReadCaller h ok v])

/-- Settlement of the executing write handler `w`: the mutex's continuation
settles the caller's promise with the handler's outcome, clears `running`
and calls `next()`. -/
def rwWriteSettle (s : RwState) (w : Nat) (ok : Bool) (v : Nat) : RwState × List RObs :=
  if s.crashed then (s, []) else
  if s.execWrite = some w then
    let p := rwNext { s with execWrite := none,
                             settledWrites := s.settledWrites ++ [(w, ok, v)],
                             running := false, curItem := none }
    (p.1, RObs.settledWriteCaller w ok v :: p.2)
  else (s, [])

/-- Events driving an rwlock: the public calls `read`/`write` and the later
settlements of handlers that are mid-execution. -/
inductive REvent where
  | read (h : Nat)
  | write (w : Nat)
  | readSettle (h : Nat) (ok : Bool) (v : Nat)
  | writeSettle (w : Nat) (ok : Bool) (v : Nat)
deriving DecidableEq, Repr

/-- One step of the rwlock machine. -/
def rwStep (s : RwState) : REvent → RwState × List RObs
  | REvent.read h => rwRead s h
  | REvent.write w => rwWrite s w
  | REvent.readSettle h ok v => rwReadSettle s h ok v
  | REvent.writeSettle w ok v => rwWriteSettle s w ok v

/-- Run a list of events from a state. -/
def rwExec (s : RwState) : List REvent → RwState
  | [] => s
  | e :: es => rwExec (rwStep s e).1 es

/-- States reachable from a freshly constructed rwlock. -/
def RwReachable (s : RwState) : Prop :=
  ∃ es : List REvent, rwExec RwState.init es = s

/-- Allocation indices of the batch items sitting in the mutex queue. -/
def qbatches : List Item → List Nat
  | [] => []
  | Item.batch b :: rest => b :: qbatches rest
  | Item.wr _ :: rest => qbatches rest

/-- Inductive invariant of the rwlock machine, tying the source fields
(`running`, `queue`, `remaining`, `tailFxList`, `batchDone`, `members`) to
the ghost execution bookkeeping. -/
structure RwInv (s : RwState) : Prop where
  notCrashed : s.crashed = false
  runIff : s.running = true ↔ s.curItem ≠ none
  idleState : s.running = false → s.queue = [] ∧ s.tailFxList = none
  noneQuiet : s.curItem = none →
      s.execReads = [] ∧ s.execWrite = none ∧ s.remaining = 0
  wrQuiet : ∀ w, s.curItem = some (Item.wr w) →
      s.execReads = [] ∧ s.execWrite = some w ∧ s.remaining = 0
  batchLive : ∀ b, s.curItem = some (Item.batch b) →
      s.execWrite = none ∧ s.batchDone = some b ∧ b ∉ s.batchSignalled ∧
      s.remaining = (s.execReads.length : Int) ∧ 1 ≤ s.remaining ∧
      (∀ p ∈ s.execReads, p.2 = b) ∧ b ∈ s.startedBatches
  tailPos : ∀ t, s.tailFxList = some t →
      (s.queue = [] ∧ s.curItem = some (Item.batch t)) ∨
      ∃ q', s.queue = q' ++ [Item.batch t]
  queuedBatch : ∀ b, b ∈ qbatches s.queue →
      mlookup s.members b ≠ [] ∧ b ∉ s.startedBatches
  queueNodup : (qbatches s.queue).Nodup
  memKeys : s.members.map Prod.fst = List.range s.nextBatch
  startedLt : ∀ b, b ∈ s.startedBatches → b < s.nextBatch
  doneStarted : ∀ d, s.batchDone = some d → d ∈ s.startedBatches
  sigStarted : ∀ b, b ∈ s.batchSignalled → b ∈ s.startedBatches

/-- Erase the recorded caller outcomes (used to compare the effect of a
failed settlement with a successful one on all remaining state). -/
def MutexState.clearOutcomes (s : MutexState) : MutexState :=
  { s with settledList := [] }

/-- Erase the recorded caller outcomes of an rwlock state. -/
def RwState.clearOutcomes (s : RwState) : RwState :=
  { s with settledReads := [], settledWrites := [] }

lemma mutexInv_init : MutexInv MutexState.init := by
  constructor <;> simp [MutexState.init]

lemma mutexNext_inv (s : MutexState) (h1 : s.crashed = false)
    (h2 : s.running = false) (h3 : s.executing = [])
    (h4 : s.startedList ++ s.queue = s.submittedList) :
    MutexInv (mutexNext s).1 := by
  cases hq : s.queue with
  | nil =>
      have he : (mutexNext s).1 = s := by simp [mutexNext, h2, hq]
      rw [he]
      exact ⟨h1, by simp [h3], by simp [h2, h3], fun _ => hq, h4⟩
  | cons h rest =>
      have he : (mutexNext s).1 =
          { s with running := true, queue := rest,
                   executing := s.executing ++ [h],
                   startedList := s.startedList ++ [h] } := by
        simp [mutexNext, h2, hq]
      rw [he]
      refine ⟨h1, by simp [h3], by simp [h3], by simp, ?_⟩
      show s.startedList ++ [h] ++ rest = s.submittedList
      rw [List.append_assoc]
      simpa [hq] using h4

lemma mutexRun_inv (s : MutexState) (hs : MutexInv s) (h : Nat) :
    MutexInv (mutexRun s h).1 := by
  have hfifo : s.startedList ++ (s.queue ++ [h]) = s.submittedList ++ [h] := by
    rw [← List.append_assoc, hs.fifo]
  cases hr : s.running with
  | true =>
      have he : (mutexRun s h).1 =
          { s with queue := s.queue ++ [h],
                   submittedList := s.submittedList ++ [h] } := by
        simp [mutexRun, hs.notCrashed, hr]
      rw [he]
      exact ⟨hs.notCrashed, hs.atMostOne, hs.runIff, by simp [hr], hfifo⟩
  | false =>
      have hx : s.executing = [] := by
        have := hs.runIff
        simp [hr] at this
        exact this
      have he : (mutexRun s h).1 =
          (mutexNext { s with queue := s.queue ++ [h],
                              submittedList := s.submittedList ++ [h] }).1 := by
        simp [mutexRun, hs.notCrashed, hr]
      rw [he]
      exact mutexNext_inv _ (by simpa using hs.notCrashed) (by simpa using hr)
        (by simpa using hx) (by simpa using hfifo)

lemma length_le_one_mem (l : List Nat) (h : Nat) (h1 : l.length ≤ 1)
    (h2 : h ∈ l) : l = [h] := by
  cases l with
  | nil => simp at h2
  | cons x rest =>
      cases rest with
      | nil => simp at h2; simp [h2]
      | cons y r2 => simp at h1

lemma mutexSettle_inv (s : MutexState) (hs : MutexInv s) (h : Nat)
    (ok : Bool) (v : Nat) : MutexInv (mutexSettle s h ok v).1 := by
  by_cases hm : h ∈ s.executing
  · have hex : s.executing = [h] := length_le_one_mem _ _ hs.atMostOne hm
    have he : (mutexSettle s h ok v).1 = (mutexNext (mutexSettlePre s h ok v)).1 := by
      simp [mutexSettle, hs.notCrashed, hm]
    rw [he]
    refine mutexNext_inv _ ?_ ?_ ?_ ?_
    · simpa [mutexSettlePre] using hs.notCrashed
    · simp [mutexSettlePre]
    · simp [mutexSettlePre, hex]
    · simpa [mutexSettlePre] using hs.fifo
  · have he : (mutexSettle s h ok v).1 = s := by
      simp [mutexSettle, hs.notCrashed, hm]
    rw [he]
    exact hs

lemma mutexStep_inv (s : MutexState) (hs : MutexInv s) (e : MEvent) :
    MutexInv (mutexStep s e).1 := by
  cases e with
  | run h => exact mutexRun_inv s hs h
  | settle h ok v => exact mutexSettle_inv s hs h ok v

lemma mutexExec_inv (es : List MEvent) (s : MutexState) (hs : MutexInv s) :
    MutexInv (mutexExec s es) := by
  induction es generalizing s with
  | nil => exact hs
  | cons e es ih => exact ih _ (mutexStep_inv s hs e)

lemma mutexReachable_inv (s : MutexState) (hs : MutexReachable s) :
    MutexInv s := by
  obtain ⟨es, rfl⟩ := hs
  exact mutexExec_inv es _ mutexInv_init

lemma qbatches_append (xs ys : List Item) :
    qbatches (xs ++ ys) = qbatches xs ++ qbatches ys := by
  induction xs with
  | nil => rfl
  | cons x rest ih => cases x <;> simp [qbatches, ih]

lemma mlookup_append (xs ys : List (Nat × List Nat)) (b : Nat) :
    mlookup (xs ++ ys) b =
      if b ∈ xs.map Prod.fst then mlookup xs b else mlookup ys b := by
  induction xs with
  | nil => simp [mlookup]
  | cons p rest ih =>
      obtain ⟨k, l⟩ := p
      by_cases hk : k = b
      · simp [mlookup, hk]
      · by_cases hb : b ∈ rest.map Prod.fst <;>
          simp [mlookup, hk, ih, hb, Ne.symm hk]

lemma mpush_keys (ms : List (Nat × List Nat)) (b h : Nat) :
    (mpush ms b h).map Prod.fst = ms.map Prod.fst := by
  induction ms with
  | nil => rfl
  | cons p rest ih =>
      obtain ⟨k, l⟩ := p
      by_cases hk : k = b <;> simp [mpush, hk, ih]

lemma mlookup_mpush_self (ms : List (Nat × List Nat)) (b h : Nat)
    (hmem : b ∈ ms.map Prod.fst) :
    mlookup (mpush ms b h) b = mlookup ms b ++ [h] := by
  induction ms with
  | nil => simp at hmem
  | cons p rest ih =>
      obtain ⟨k, l⟩ := p
      by_cases hk : k = b
      · simp [mpush, mlookup, hk]
      · have hb : b ∈ rest.map Prod.fst := by
          simpa [Ne.symm hk] using hmem
        simp [mpush, mlookup, hk, ih hb]

lemma mlookup_mpush_ne (ms : List (Nat × List Nat)) (b h c : Nat) (hc : c ≠ b) :
    mlookup (mpush ms b h) c = mlookup ms c := by
  induction ms with
  | nil => rfl
  | cons p rest ih =>
      obtain ⟨k, l⟩ := p
      by_cases hk : k = b
      · subst hk
        simp [mpush, mlookup, Ne.symm hc]
      · by_cases hkc : k = c <;> simp [mpush, mlookup, hk, hkc, hc, ih]

lemma mlookup_ne_nil_mem (ms : List (Nat × List Nat)) (b : Nat)
    (h : mlookup ms b ≠ []) : b ∈ ms.map Prod.fst := by
  induction ms with
  | nil => simp [mlookup] at h
  | cons p rest ih =>
      obtain ⟨k, l⟩ := p
      by_cases hk : k = b
      · simp [hk]
      · simp only [mlookup, hk, if_false] at h
        simp only [List.map_cons, List.mem_cons]
        exact Or.inr (ih h)

lemma pairLookup_mem (l : List (Nat × Nat)) (h b : Nat)
    (hl : pairLookup l h = some b) : (h, b) ∈ l := by
  induction l with
  | nil => simp [pairLookup] at hl
  | cons p rest ih =>
      obtain ⟨x, c⟩ := p
      by_cases hx : x = h
      · simp only [pairLookup, hx, if_true, Option.some.injEq] at hl
        simp [hx, hl]
      · simp only [pairLookup, hx, if_false] at hl
        simp [ih hl]

lemma pairErase_length (l : List (Nat × Nat)) (h b : Nat)
    (hl : pairLookup l h = some b) : l.length = (pairErase l h).length + 1 := by
  induction l with
  | nil => simp [pairLookup] at hl
  | cons p rest ih =>
      obtain ⟨x, c⟩ := p
      by_cases hx : x = h
      · simp [pairErase, hx]
      · simp only [pairLookup, hx, if_false] at hl
        simp [pairErase, hx, ih hl]

lemma pairErase_subset (l : List (Nat × Nat)) (h : Nat) (p : Nat × Nat)
    (hp : p ∈ pairErase l h) : p ∈ l := by
  induction l with
  | nil => simp [pairErase] at hp
  | cons q rest ih =>
      obtain ⟨x, c⟩ := q
      by_cases hx : x = h
      · simp only [pairErase, hx, if_true] at hp
        simp [hp]
      · simp only [pairErase, hx, if_false, List.mem_cons] at hp
        rcases hp with hp | hp
        · simp [hp]
        · simp [ih hp]

lemma pairErase_mem_of_ne (l : List (Nat × Nat)) (h : Nat) (p : Nat × Nat)
    (hp : p ∈ l) (hne : p.1 ≠ h) : p ∈ pairErase l h := by
  induction l with
  | nil => simp at hp
  | cons q rest ih =>
      obtain ⟨x, c⟩ := q
      by_cases hx : x = h
      · subst hx
        rcases List.mem_cons.mp hp with hp | hp
        · exact absurd (by rw [hp]) hne
        · simpa [pairErase] using hp
      · rcases List.mem_cons.mp hp with hp | hp
        · simp [pairErase, hx, hp]
        · simp only [pairErase, hx, if_false, List.mem_cons]
          exact Or.inr (ih hp)

lemma rwInv_init : RwInv RwState.init := by
  constructor <;> simp [RwState.init, qbatches]

lemma rwNext_establishes (s : RwState)
    (h1 : s.crashed = false) (h2 : s.running = false) (h3 : s.curItem = none)
    (h4 : s.execReads = []) (h5 : s.execWrite = none) (h6 : s.remaining = 0)
    (h7 : ∀ t, s.tailFxList = some t → ∃ q', s.queue = q' ++ [Item.batch t])
    (h8 : ∀ b, b ∈ qbatches s.queue → mlookup s.members b ≠ [] ∧ b ∉ s.startedBatches)
    (h9 : (qbatches s.queue).Nodup)
    (h10 : s.members.map Prod.fst = List.range s.nextBatch)
    (h11 : ∀ b, b ∈ s.startedBatches → b < s.nextBatch)
    (h12 : ∀ d, s.batchDone = some d → d ∈ s.startedBatches)
    (h13 : ∀ b, b ∈ s.batchSignalled → b ∈ s.startedBatches) :
    RwInv (rwNext s).1 := by
  cases hq : s.queue with
  | nil =>
      have htail : s.tailFxList = none := by
        cases ht : s.tailFxList with
        | none => rfl
        | some t =>
            obtain ⟨q', hq'⟩ := h7 t ht
            rw [hq] at hq'
            simp at hq'
      have he : (rwNext s).1 = s := by simp [rwNext, h2, hq]
      rw [he]
      refine ⟨h1, by simp [h2, h3], fun _ => ⟨hq, htail⟩, fun _ => ⟨h4, h5, h6⟩,
        ?_, ?_, ?_, h8, h9, h10, h11, h12, h13⟩
      · intro w hw
        rw [h3] at hw
        cases hw
      · intro b hb
        rw [h3] at hb
        cases hb
      · intro t ht
        rw [htail] at ht
        cases ht
  | cons it rest =>
      cases it with
      | wr w =>
          have he : (rwNext s).1 =
              { s with running := true, curItem := some (Item.wr w), queue := rest,
                       execWrite := some w,
                       startedWrites := s.startedWrites ++ [w] } := by
            simp [rwNext, h2, hq, startItem]
          rw [he]
          refine ⟨h1, by simp, by simp, by simp, ?_, ?_, ?_, ?_, ?_, h10, h11, h12, h13⟩
          · intro w' hw'
            simp only [Option.some.injEq, Item.wr.injEq] at hw'
            subst hw'
            exact ⟨h4, rfl, h6⟩
          · intro b hb
            simp at hb
          · intro t ht
            obtain ⟨q', hq'⟩ := h7 t ht
            rw [hq] at hq'
            cases q' with
            | nil => simp at hq'
            | cons x q'' =>
                right
                refine ⟨q'', ?_⟩
                simp only [List.cons_append, List.cons.injEq] at hq'
                exact hq'.2
          · intro b hb
            refine h8 b ?_
            rw [hq]
            simpa [qbatches] using hb
          · have h9' := h9
            rw [hq] at h9'
            simpa [qbatches] using h9'
      | batch b =>
          have hbq : b ∈ qbatches s.queue := by rw [hq]; simp [qbatches]
          obtain ⟨hmem, hnst⟩ := h8 b hbq
          have hblt : b < s.nextBatch := by
            have hx := mlookup_ne_nil_mem _ _ hmem
            rw [h10] at hx
            simpa using hx
          have hers : qbatches s.queue = b :: qbatches rest := by
            rw [hq]; simp [qbatches]
          have hnodup' : b ∉ qbatches rest := by
            have h9' := h9
            rw [hers] at h9'
            exact (List.nodup_cons.mp h9').1
          have he : (rwNext s).1 =
              { s with running := true, curItem := some (Item.batch b), queue := rest,
                       batchDone := some b,
                       remaining := ((mlookup s.members b).length : Int),
                       execReads := s.execReads ++
                         (mlookup s.members b).map (fun h => (h, b)),
                       startedReads := s.startedReads ++ mlookup s.members b,
                       startedBatches := s.startedBatches ++ [b] } := by
            simp [rwNext, h2, hq, startItem]
          rw [he]
          refine ⟨h1, by simp, by simp, by simp, ?_, ?_, ?_, ?_, ?_, h10, ?_, ?_, ?_⟩
          · intro w hw
            simp at hw
          · intro b' hb'
            simp only [Option.some.injEq, Item.batch.injEq] at hb'
            subst hb'
            refine ⟨h5, rfl, ?_, ?_, ?_, ?_, ?_⟩
            · intro hbs
              exact hnst (h13 b hbs)
            · simp [h4]
            · have hpos : 0 < (mlookup s.members b).length := List.length_pos.mpr hmem
              show 1 ≤ ((mlookup s.members b).length : Int)
              omega
            · intro p hp
              rw [h4] at hp
              simp at hp
              obtain ⟨x, -, hx2⟩ := hp
              rw [← hx2]
            · simp
          · intro t ht
            obtain ⟨q', hq'⟩ := h7 t ht
            rw [hq] at hq'
            cases q' with
            | nil =>
                simp only [List.nil_append, List.cons.injEq, Item.batch.injEq] at hq'
                left
                rw [hq'.2, hq'.1]
                exact ⟨rfl, rfl⟩
            | cons x q'' =>
                right
                refine ⟨q'', ?_⟩
                simp only [List.cons_append, List.cons.injEq] at hq'
                exact hq'.2
          · intro b' hb'
            have hbm : b' ∈ qbatches s.queue := by
              rw [hers]
              simp [hb']
            obtain ⟨hm', hn'⟩ := h8 b' hbm
            refine ⟨hm', ?_⟩
            simp only [List.mem_append, List.mem_singleton]
            rintro (hc | hc)
            · exact hn' hc
            · rw [hc] at hb'
              exact hnodup' hb'
          · have h9' := h9
            rw [hers] at h9'
            exact (List.nodup_cons.mp h9').2
          · intro b' hb'
            simp only [List.mem_append, List.mem_singleton] at hb'
            rcases hb' with hb' | hb'
            · exact h11 b' hb'
            · rw [hb']
              exact hblt
          · intro d hd
            simp only [Option.some.injEq] at hd
            rw [hd]
            simp
          · intro b' hb'
            exact List.mem_append_left _ (h13 b' hb')

lemma queued_lt (s : RwState) (hs : RwInv s) (b : Nat)
    (hb : b ∈ qbatches s.queue) : b < s.nextBatch := by
  obtain ⟨hm, -⟩ := hs.queuedBatch b hb
  have hx := mlookup_ne_nil_mem _ _ hm
  rw [hs.memKeys] at hx
  simpa using hx

lemma read_newbatch_queued (s : RwState) (hs : RwInv s) (h b' : Nat)
    (hb : b' ∈ qbatches (s.queue ++ [Item.batch s.nextBatch])) :
    mlookup (s.members ++ [(s.nextBatch, [h])]) b' ≠ [] ∧
      b' ∉ s.startedBatches := by
  rw [qbatches_append] at hb
  simp only [qbatches, List.mem_append, List.mem_singleton] at hb
  rcases hb with hb | hb
  · obtain ⟨hm, hn⟩ := hs.queuedBatch b' hb
    have hkm : b' ∈ s.members.map Prod.fst := mlookup_ne_nil_mem _ _ hm
    rw [mlookup_append]
    simp only [hkm, if_true]
    exact ⟨hm, hn⟩
  · subst hb
    constructor
    · rw [mlookup_append]
      have hnm : s.nextBatch ∉ s.members.map Prod.fst := by
        rw [hs.memKeys]; simp
      simp [hnm, mlookup]
    · intro hc
      exact absurd (hs.startedLt _ hc) (by omega)

lemma read_newbatch_nodup (s : RwState) (hs : RwInv s) :
    (qbatches (s.queue ++ [Item.batch s.nextBatch])).Nodup := by
  rw [qbatches_append]
  simp only [qbatches]
  refine List.Nodup.append hs.queueNodup (List.nodup_singleton _) ?_
  intro a ha hb
  simp only [List.mem_singleton] at hb
  subst hb
  exact absurd (queued_lt s hs _ ha) (by omega)

lemma read_newbatch_keys (s : RwState) (hs : RwInv s) (h : Nat) :
    (s.members ++ [(s.nextBatch, [h])]).map Prod.fst =
      List.range (s.nextBatch + 1) := by
  simp [hs.memKeys, List.range_succ]

lemma rwRead_inv (s : RwState) (hs : RwInv s) (h : Nat) :
    RwInv (rwRead s h).1 := by
  cases htl : s.tailFxList with
  | none =>
      cases hr : s.running with
      | true =>
          have he : (rwRead s h).1 =
              { s with submittedReads := s.submittedReads ++ [h],
                       nextBatch := s.nextBatch + 1,
                       tailFxList := some s.nextBatch,
                       members := s.members ++ [(s.nextBatch, [h])],
                       queue := s.queue ++ [Item.batch s.nextBatch] } := by
            simp [rwRead, rwMutexRun, hs.notCrashed, htl, hr]
          rw [he]
          refine ⟨hs.notCrashed, hs.runIff, by simp [hr], hs.noneQuiet,
            hs.wrQuiet, hs.batchLive, ?_, ?_, ?_, ?_, ?_,
            hs.doneStarted, hs.sigStarted⟩
          · intro t ht
            have ht2 : some s.nextBatch = some t := ht
            simp only [Option.some.injEq] at ht2
            subst ht2
            right
            exact ⟨s.queue, rfl⟩
          · intro b hb
            exact read_newbatch_queued s hs h b hb
          · exact read_newbatch_nodup s hs
          · exact read_newbatch_keys s hs h
          · intro b hb
            show b < s.nextBatch + 1
            have := hs.startedLt b hb
            omega
      | false =>
          obtain ⟨hq0, -⟩ := hs.idleState hr
          have hcur : s.curItem = none := by
            by_contra hc
            have hx := hs.runIff.mpr hc
            rw [hr] at hx
            exact Bool.noConfusion hx
          obtain ⟨hxr, hxw, hrem⟩ := hs.noneQuiet hcur
          have he : (rwRead s h).1 =
              (rwNext
                { s with submittedReads := s.submittedReads ++ [h],
                         nextBatch := s.nextBatch + 1,
                         tailFxList := some s.nextBatch,
                         members := s.members ++ [(s.nextBatch, [h])],
                         queue := s.queue ++ [Item.batch s.nextBatch] }).1 := by
            simp [rwRead, rwMutexRun, hs.notCrashed, htl, hr]
          rw [he]
          refine rwNext_establishes _ hs.notCrashed hr hcur hxr hxw hrem
            ?_ ?_ ?_ ?_ ?_ hs.doneStarted hs.sigStarted
          · intro t ht
            have ht2 : some s.nextBatch = some t := ht
            simp only [Option.some.injEq] at ht2
            subst ht2
            exact ⟨s.queue, rfl⟩
          · intro b hb
            exact read_newbatch_queued s hs h b hb
          · exact read_newbatch_nodup s hs
          · exact read_newbatch_keys s hs h
          · intro b hb
            show b < s.nextBatch + 1
            have := hs.startedLt b hb
            omega
  | some b =>
      have hrun : s.running = true := by
        cases hr : s.running with
        | true => rfl
        | false =>
            obtain ⟨-, htn⟩ := hs.idleState hr
            rw [htn] at htl
            exact Option.noConfusion htl
      by_cases hql : 0 < s.queue.length
      · have he : (rwRead s h).1 =
            { s with submittedReads := s.submittedReads ++ [h],
                     members := mpush s.members b h } := by
          simp [rwRead, hs.notCrashed, htl, hql]
        rw [he]
        have hbk : b ∈ s.members.map Prod.fst := by
          rcases hs.tailPos b htl with ⟨hq0, -⟩ | ⟨q', hq'⟩
          · rw [hq0] at hql
            simp at hql
          · have hbq : b ∈ qbatches s.queue := by
              rw [hq', qbatches_append]
              simp [qbatches]
            obtain ⟨hm, -⟩ := hs.queuedBatch b hbq
            exact mlookup_ne_nil_mem _ _ hm
        refine ⟨hs.notCrashed, hs.runIff, by simp [hrun], hs.noneQuiet,
          hs.wrQuiet, hs.batchLive, hs.tailPos, ?_, hs.queueNodup, ?_,
          hs.startedLt, hs.doneStarted, hs.sigStarted⟩
        · intro b' hb'
          obtain ⟨hm, hn⟩ := hs.queuedBatch b' hb'
          refine ⟨?_, hn⟩
          by_cases hbb : b' = b
          · subst hbb
            rw [mlookup_mpush_self _ _ _ hbk]
            simp
          · rw [mlookup_mpush_ne _ _ _ _ hbb]
            exact hm
        · show (mpush s.members b h).map Prod.fst = List.range s.nextBatch
          rw [mpush_keys]
          exact hs.memKeys
      · have hq0 : s.queue = [] := by
          cases hqq : s.queue with
          | nil => rfl
          | cons a as =>
              rw [hqq] at hql
              simp at hql
        have hcur : s.curItem = some (Item.batch b) := by
          rcases hs.tailPos b htl with ⟨-, hc⟩ | ⟨q', hq'⟩
          · exact hc
          · rw [hq0] at hq'
            simp at hq'
        obtain ⟨hw, hd, hns, hrem, hge, hall, hst⟩ := hs.batchLive b hcur
        have he : (rwRead s h).1 =
            { s with submittedReads := s.submittedReads ++ [h],
                     remaining := s.remaining + 1,
                     execReads := s.execReads ++ [(h, b)],
                     startedReads := s.startedReads ++ [h] } := by
          simp [rwRead, hs.notCrashed, htl, hql]
        rw [he]
        refine ⟨hs.notCrashed, hs.runIff, by simp [hrun], ?_, ?_, ?_, ?_,
          hs.queuedBatch, hs.queueNodup, hs.memKeys, hs.startedLt,
          hs.doneStarted, hs.sigStarted⟩
        · intro h0
          have h2 : s.curItem = none := h0
          rw [hcur] at h2
          exact Option.noConfusion h2
        · intro w0 hw0
          have h2 : s.curItem = some (Item.wr w0) := hw0
          rw [hcur] at h2
          simp at h2
        · intro b' hb'
          have h2 : s.curItem = some (Item.batch b') := hb'
          rw [hcur] at h2
          simp only [Option.some.injEq, Item.batch.injEq] at h2
          subst h2
          refine ⟨hw, hd, hns, ?_, ?_, ?_, hst⟩
          · show s.remaining + 1 = ((s.execReads ++ [(h, b)]).length : Int)
            simp only [List.length_append, List.length_singleton]
            push_cast
            omega
          · show (1 : Int) ≤ s.remaining + 1
            omega
          · intro p hp
            have hp2 : p ∈ s.execReads ++ [(h, b)] := hp
            simp only [List.mem_append, List.mem_singleton] at hp2
            rcases hp2 with hp2 | hp2
            · exact hall p hp2
            · rw [hp2]
        · intro t ht
          have ht2 : s.tailFxList = some t := ht
          rw [htl] at ht2
          simp only [Option.some.injEq] at ht2
          subst ht2
          left
          exact ⟨hq0, hcur⟩

lemma rwWrite_inv (s : RwState) (hs : RwInv s) (w : Nat) :
    RwInv (rwWrite s w).1 := by
  have hqb : qbatches (s.queue ++ [Item.wr w]) = qbatches s.queue := by
    rw [qbatches_append]
    simp [qbatches]
  cases hr : s.running with
  | true =>
      have he : (rwWrite s w).1 =
          { s with tailFxList := none,
                   submittedWrites := s.submittedWrites ++ [w],
                   queue := s.queue ++ [Item.wr w] } := by
        simp [rwWrite, rwMutexRun, hs.notCrashed, hr]
      rw [he]
      refine ⟨hs.notCrashed, hs.runIff, by simp [hr], hs.noneQuiet,
        hs.wrQuiet, hs.batchLive, ?_, ?_, ?_, hs.memKeys, hs.startedLt,
        hs.doneStarted, hs.sigStarted⟩
      · intro t ht
        exact Option.noConfusion ht
      · intro b hb
        have hb2 : b ∈ qbatches (s.queue ++ [Item.wr w]) := hb
        rw [hqb] at hb2
        exact hs.queuedBatch b hb2
      · show (qbatches (s.queue ++ [Item.wr w])).Nodup
        rw [hqb]
        exact hs.queueNodup
  | false =>
      obtain ⟨hq0, htn⟩ := hs.idleState hr
      have hcur : s.curItem = none := by
        by_contra hc
        have hx := hs.runIff.mpr hc
        rw [hr] at hx
        exact Bool.noConfusion hx
      obtain ⟨hxr, hxw, hrem⟩ := hs.noneQuiet hcur
      have he : (rwWrite s w).1 =
          (rwNext
            { s with tailFxList := none,
                     submittedWrites := s.submittedWrites ++ [w],
                     queue := s.queue ++ [Item.wr w] }).1 := by
        simp [rwWrite, rwMutexRun, hs.notCrashed, hr]
      rw [he]
      refine rwNext_establishes _ hs.notCrashed hr hcur hxr hxw hrem
        ?_ ?_ ?_ hs.memKeys hs.startedLt hs.doneStarted hs.sigStarted
      · intro t ht
        exact Option.noConfusion ht
      · intro b hb
        have hb2 : b ∈ qbatches (s.queue ++ [Item.wr w]) := hb
        rw [hqb] at hb2
        exact hs.queuedBatch b hb2
      · show (qbatches (s.queue ++ [Item.wr w])).Nodup
        rw [hqb]
        exact hs.queueNodup

lemma rwWriteSettle_inv (s : RwState) (hs : RwInv s) (w : Nat) (ok : Bool)
    (v : Nat) : RwInv (rwWriteSettle s w ok v).1 := by
  by_cases hxw : s.execWrite = some w
  · have hcur : s.curItem = some (Item.wr w) := by
      cases hc : s.curItem with
      | none =>
          obtain ⟨-, hx, -⟩ := hs.noneQuiet hc
          rw [hx] at hxw
          exact Option.noConfusion hxw
      | some it =>
          cases it with
          | batch b =>
              obtain ⟨hx, -⟩ := hs.batchLive b hc
              rw [hx] at hxw
              exact Option.noConfusion hxw
          | wr w' =>
              obtain ⟨-, hx, -⟩ := hs.wrQuiet w' hc
              rw [hx] at hxw
              simp only [Option.some.injEq] at hxw
              rw [hxw]
    obtain ⟨hxr, -, hr0⟩ := hs.wrQuiet w hcur
    have he : (rwWriteSettle s w ok v).1 =
        (rwNext
          { s with execWrite := none,
                   settledWrites := s.settledWrites ++ [(w, ok, v)],
                   running := false, curItem := none }).1 := by
      simp [rwWriteSettle, hs.notCrashed, hxw]
    rw [he]
    refine rwNext_establishes _ hs.notCrashed rfl rfl hxr rfl hr0 ?_
      hs.queuedBatch hs.queueNodup hs.memKeys hs.startedLt hs.doneStarted
      hs.sigStarted
    intro t ht
    have ht2 : s.tailFxList = some t := ht
    rcases hs.tailPos t ht2 with ⟨-, hc⟩ | hx
    · rw [hcur] at hc
      simp at hc
    · exact hx
  · have he : (rwWriteSettle s w ok v).1 = s := by
      simp [rwWriteSettle, hs.notCrashed, hxw]
    rw [he]
    exact hs

lemma rwReadSettle_inv (s : RwState) (hs : RwInv s) (h : Nat) (ok : Bool)
    (v : Nat) : RwInv (rwReadSettle s h ok v).1 := by
  cases hl : pairLookup s.execReads h with
  | none =>
      have he : (rwReadSettle s h ok v).1 = s := by
        simp [rwReadSettle, hs.notCrashed, hl]
      rw [he]
      exact hs
  | some b =>
      have hmem : (h, b) ∈ s.execReads := pairLookup_mem _ _ _ hl
      have hcur : s.curItem = some (Item.batch b) := by
        cases hc : s.curItem with
        | none =>
            obtain ⟨hx, -, -⟩ := hs.noneQuiet hc
            rw [hx] at hmem
            simp at hmem
        | some it =>
            cases it with
            | wr w =>
                obtain ⟨hx, -, -⟩ := hs.wrQuiet w hc
                rw [hx] at hmem
                simp at hmem
            | batch b' =>
                have hbb : b = b' := (hs.batchLive b' hc).2.2.2.2.2.1 (h, b) hmem
                rw [hbb]
      obtain ⟨hw, hd, hns, hrem, hge, hall, hst⟩ := hs.batchLive b hcur
      have hrun : s.running = true := hs.runIff.mpr (by rw [hcur]; simp)
      have hlen : s.execReads.length = (pairErase s.execReads h).length + 1 :=
        pairErase_length _ _ _ hl
      by_cases hz : s.remaining - 1 = 0
      · have herNil : pairErase s.execReads h = [] := by
          have h0 : (pairErase s.execReads h).length = 0 := by omega
          exact List.length_eq_zero.mp h0
        have hkey : ∀ tl : Option Nat,
            (∀ t, tl = some t → ∃ q', s.queue = q' ++ [Item.batch t]) →
            RwInv (rwNext
              { s with execReads := pairErase s.execReads h,
                       settledReads := s.settledReads ++ [(h, ok, v)],
                       remaining := s.remaining - 1,
                       tailFxList := tl,
                       batchSignalled := s.batchSignalled ++ [b],
                       running := false, curItem := none }).1 := by
          intro tl htl
          refine rwNext_establishes _ hs.notCrashed rfl rfl herNil hw hz htl
            hs.queuedBatch hs.queueNodup hs.memKeys hs.startedLt ?_ ?_
          · intro d hd2
            have hd3 : s.batchDone = some d := hd2
            rw [hd] at hd3
            simp only [Option.some.injEq] at hd3
            rw [← hd3]
            exact hst
          · intro b' hb'
            have hb2 : b' ∈ s.batchSignalled ++ [b] := hb'
            simp only [List.mem_append, List.mem_singleton] at hb2
            rcases hb2 with hb2 | hb2
            · exact hs.sigStarted b' hb2
            · rw [hb2]
              exact hst
        by_cases ht : s.tailFxList = some b
        · have he : (rwReadSettle s h ok v).1 =
              (rwNext
                { s with execReads := pairErase s.execReads h,
                         settledReads := s.settledReads ++ [(h, ok, v)],
                         remaining := s.remaining - 1,
                         tailFxList := none,
                         batchSignalled := s.batchSignalled ++ [b],
                         running := false, curItem := none }).1 := by
            simp [rwReadSettle, invokeBatchDone, hs.notCrashed, hl, hz, ht,
              hd, hns]
          rw [he]
          refine hkey none ?_
          intro t htt
          exact Option.noConfusion htt
        · have he : (rwReadSettle s h ok v).1 =
              (rwNext
                { s with execReads := pairErase s.execReads h,
                         settledReads := s.settledReads ++ [(h, ok, v)],
                         remaining := s.remaining - 1,
                         tailFxList := s.tailFxList,
                         batchSignalled := s.batchSignalled ++ [b],
                         running := false, curItem := none }).1 := by
            simp [rwReadSettle, invokeBatchDone, hs.notCrashed, hl, hz, ht,
              hd, hns]
          rw [he]
          refine hkey s.tailFxList ?_
          intro t htt
          rcases hs.tailPos t htt with ⟨-, hc⟩ | hx
          · rw [hcur] at hc
            simp only [Option.some.injEq, Item.batch.injEq] at hc
            subst hc
            exact absurd htt ht
          · exact hx
      · have he : (rwReadSettle s h ok v).1 =
            { s with execReads := pairErase s.execReads h,
                     settledReads := s.settledReads ++ [(h, ok, v)],
                     remaining := s.remaining - 1 } := by
          simp [rwReadSettle, hs.notCrashed, hl, hz]
        rw [he]
        refine ⟨hs.notCrashed, hs.runIff, by simp [hrun], ?_, ?_, ?_,
          hs.tailPos, hs.queuedBatch, hs.queueNodup, hs.memKeys,
          hs.startedLt, hs.doneStarted, hs.sigStarted⟩
        · intro h0
          have h2 : s.curItem = none := h0
          rw [hcur] at h2
          exact Option.noConfusion h2
        · intro w0 hw0
          have h2 : s.curItem = some (Item.wr w0) := hw0
          rw [hcur] at h2
          simp at h2
        · intro b' hb'
          have h2 : s.curItem = some (Item.batch b') := hb'
          rw [hcur] at h2
          simp only [Option.some.injEq, Item.batch.injEq] at h2
          subst h2
          refine ⟨hw, hd, hns, ?_, ?_, ?_, hst⟩
          · show s.remaining - 1 = ((pairErase s.execReads h).length : Int)
            omega
          · show (1 : Int) ≤ s.remaining - 1
            omega
          · intro p hp
            have hp2 : p ∈ pairErase s.execReads h := hp
            exact hall p (pairErase_subset _ _ _ hp2)

lemma rwStep_inv (s : RwState) (hs : RwInv s) (e : REvent) :
    RwInv (rwStep s e).1 := by
  cases e with
  | read h => exact rwRead_inv s hs h
  | write w => exact rwWrite_inv s hs w
  | readSettle h ok v => exact rwReadSettle_inv s hs h ok v
  | writeSettle w ok v => exact rwWriteSettle_inv s hs w ok v

lemma rwExec_inv (es : List REvent) (s : RwState) (hs : RwInv s) :
    RwInv (rwExec s es) := by
  induction es generalizing s with
  | nil => exact hs
  | cons e es ih => exact ih _ (rwStep_inv s hs e)

lemma rwReachable_inv (s : RwState) (hs : RwReachable s) : RwInv s := by
  obtain ⟨es, rfl⟩ := hs
  exact rwExec_inv es _ rwInv_init

lemma mutexNext_frame (s : MutexState) :
    (mutexNext s).1.submittedList = s.submittedList ∧
    (mutexNext s).1.settledList = s.settledList := by
  by_cases hr : s.running
  · simp [mutexNext, hr]
  · cases hq : s.queue with
    | nil => simp [mutexNext, hr, hq]
    | cons a rest => simp [mutexNext, hr, hq]

lemma mutexNext_obs (s : MutexState) (o : MObs) (ho : o ∈ (mutexNext s).2) :
    ∃ h2, o = MObs.startedHandler h2 := by
  by_cases hr : s.running
  · simp [mutexNext, hr] at ho
  · cases hq : s.queue with
    | nil => simp [mutexNext, hr, hq] at ho
    | cons a rest =>
        simp [mutexNext, hr, hq] at ho
        exact ⟨a, ho⟩

lemma rwNext_frame (s : RwState) :
    (rwNext s).1.tailFxList = s.tailFxList ∧
    (rwNext s).1.nextBatch = s.nextBatch ∧
    (rwNext s).1.batchSignalled = s.batchSignalled ∧
    (rwNext s).1.settledReads = s.settledReads ∧
    (rwNext s).1.settledWrites = s.settledWrites ∧
    (rwNext s).1.submittedReads = s.submittedReads ∧
    (rwNext s).1.submittedWrites = s.submittedWrites := by
  by_cases hr : s.running
  · simp [rwNext, hr]
  · cases hq : s.queue with
    | nil => simp [rwNext, hr, hq]
    | cons it rest =>
        cases it with
        | wr w => simp [rwNext, hr, hq, startItem]
        | batch b => simp [rwNext, hr, hq, startItem]

lemma rwMutexRun_frame (s : RwState) (it : Item) :
    (rwMutexRun s it).1.tailFxList = s.tailFxList ∧
    (rwMutexRun s it).1.nextBatch = s.nextBatch ∧
    (rwMutexRun s it).1.submittedReads = s.submittedReads ∧
    (rwMutexRun s it).1.submittedWrites = s.submittedWrites := by
  by_cases hr : s.running
  · simp [rwMutexRun, hr]
  · obtain ⟨a1, a2, -, -, -, a6, a7⟩ :=
      rwNext_frame { s with queue := s.queue ++ [it] }
    have he : (rwMutexRun s it).1 =
        (rwNext { s with queue := s.queue ++ [it] }).1 := by
      simp [rwMutexRun, hr]
    rw [he]
    exact ⟨a1, a2, a6, a7⟩

lemma invokeBatchDone_frame (s : RwState) :
    (invokeBatchDone s).1.tailFxList = s.tailFxList ∧
    (invokeBatchDone s).1.nextBatch = s.nextBatch ∧
    (invokeBatchDone s).1.settledReads = s.settledReads := by
  cases hd : s.batchDone with
  | none => simp [invokeBatchDone, hd]
  | some d =>
      by_cases hm : d ∈ s.batchSignalled
      · simp [invokeBatchDone, hd, hm]
      · obtain ⟨a1, a2, -, a4, -, -, -⟩ :=
          rwNext_frame { s with batchSignalled := s.batchSignalled ++ [d],
                                running := false, curItem := none }
        have he : (invokeBatchDone s).1 =
            (rwNext { s with batchSignalled := s.batchSignalled ++ [d],
                             running := false, curItem := none }).1 := by
          simp [invokeBatchDone, hd, hm]
        rw [he]
        exact ⟨a1, a2, a4⟩

lemma rwStep_tail_mono (n : Nat) (s : RwState) (e : REvent)
    (h1 : ∀ t, s.tailFxList = some t → n ≤ t) (h2 : n ≤ s.nextBatch) :
    (∀ t, (rwStep s e).1.tailFxList = some t → n ≤ t) ∧
      n ≤ (rwStep s e).1.nextBatch := by
  cases e with
  | read h =>
      show (∀ t, (rwRead s h).1.tailFxList = some t → n ≤ t) ∧
        n ≤ (rwRead s h).1.nextBatch
      by_cases hc : s.crashed
      · have he : (rwRead s h).1 = s := by simp [rwRead, hc]
        rw [he]
        exact ⟨h1, h2⟩
      · cases htl : s.tailFxList with
        | none =>
            have he : (rwRead s h).1 =
                (rwMutexRun
                  { s with submittedReads := s.submittedReads ++ [h],
                           nextBatch := s.nextBatch + 1,
                           tailFxList := some s.nextBatch,
                           members := s.members ++ [(s.nextBatch, [h])] }
                  (Item.batch s.nextBatch)).1 := by
              simp [rwRead, hc, htl]
            rw [he]
            obtain ⟨a1, a2, -, -⟩ := rwMutexRun_frame
              { s with submittedReads := s.submittedReads ++ [h],
                       nextBatch := s.nextBatch + 1,
                       tailFxList := some s.nextBatch,
                       members := s.members ++ [(s.nextBatch, [h])] }
              (Item.batch s.nextBatch)
            rw [a1, a2]
            constructor
            · intro t ht
              have ht2 : some s.nextBatch = some t := ht
              simp only [Option.some.injEq] at ht2
              omega
            · show n ≤ s.nextBatch + 1
              omega
        | some b =>
            by_cases hql : 0 < s.queue.length
            · have he : (rwRead s h).1 =
                  { s with submittedReads := s.submittedReads ++ [h],
                           members := mpush s.members b h } := by
                simp [rwRead, hc, htl, hql]
              rw [he]
              exact ⟨fun t ht => h1 t ht, h2⟩
            · have he : (rwRead s h).1 =
                  { s with submittedReads := s.submittedReads ++ [h],
                           remaining := s.remaining + 1,
                           execReads := s.execReads ++ [(h, b)],
                           startedReads := s.startedReads ++ [h] } := by
                simp [rwRead, hc, htl, hql]
              rw [he]
              exact ⟨fun t ht => h1 t ht, h2⟩
  | write w =>
      show (∀ t, (rwWrite s w).1.tailFxList = some t → n ≤ t) ∧
        n ≤ (rwWrite s w).1.nextBatch
      by_cases hc : s.crashed
      · have he : (rwWrite s w).1 = s := by simp [rwWrite, hc]
        rw [he]
        exact ⟨h1, h2⟩
      · have he : (rwWrite s w).1 =
            (rwMutexRun
              { s with tailFxList := none,
                       submittedWrites := s.submittedWrites ++ [w] }
              (Item.wr w)).1 := by
          simp [rwWrite, hc]
        rw [he]
        obtain ⟨a1, a2, -, -⟩ := rwMutexRun_frame
          { s with tailFxList := none,
                   submittedWrites := s.submittedWrites ++ [w] } (Item.wr w)
        rw [a1, a2]
        refine ⟨?_, h2⟩
        intro t ht
        exact Option.noConfusion (ht : (none : Option Nat) = some t)
  | readSettle h ok v =>
      show (∀ t, (rwReadSettle s h ok v).1.tailFxList = some t → n ≤ t) ∧
        n ≤ (rwReadSettle s h ok v).1.nextBatch
      by_cases hc : s.crashed
      · have he : (rwReadSettle s h ok v).1 = s := by simp [rwReadSettle, hc]
        rw [he]
        exact ⟨h1, h2⟩
      · cases hl : pairLookup s.execReads h with
        | none =>
            have he : (rwReadSettle s h ok v).1 = s := by
              simp [rwReadSettle, hc, hl]
            rw [he]
            exact ⟨h1, h2⟩
        | some b =>
            by_cases hz : s.remaining - 1 = 0
            · by_cases htb : s.tailFxList = some b
              · have he : (rwReadSettle s h ok v).1 =
                    (invokeBatchDone
                      { s with execReads := pairErase s.execReads h,
                               settledReads := s.settledReads ++ [(h, ok, v)],
                               remaining := s.remaining - 1,
                               tailFxList := none }).1 := by
                  simp [rwReadSettle, hc, hl, hz, htb]
                rw [he]
                obtain ⟨a1, a2, -⟩ := invokeBatchDone_frame
                  { s with execReads := pairErase s.execReads h,
                           settledReads := s.settledReads ++ [(h, ok, v)],
                           remaining := s.remaining - 1,
                           tailFxList := none }
                rw [a1, a2]
                refine ⟨?_, h2⟩
                intro t ht
                exact Option.noConfusion (ht : (none : Option Nat) = some t)
              · have he : (rwReadSettle s h ok v).1 =
                    (invokeBatchDone
                      { s with execReads := pairErase s.execReads h,
                               settledReads := s.settledReads ++ [(h, ok, v)],
                               remaining := s.remaining - 1 }).1 := by
                  simp [rwReadSettle, hc, hl, hz, htb]
                rw [he]
                obtain ⟨a1, a2, -⟩ := invokeBatchDone_frame
                  { s with execReads := pairErase s.execReads h,
                           settledReads := s.settledReads ++ [(h, ok, v)],
                           remaining := s.remaining - 1 }
                rw [a1, a2]
                exact ⟨fun t ht => h1 t ht, h2⟩
            · have he : (rwReadSettle s h ok v).1 =
                  { s with execReads := pairErase s.execReads h,
                           settledReads := s.settledReads ++ [(h, ok, v)],
                           remaining := s.remaining - 1 } := by
                simp [rwReadSettle, hc, hl, hz]
              rw [he]
              exact ⟨fun t ht => h1 t ht, h2⟩
  | writeSettle w ok v =>
      show (∀ t, (rwWriteSettle s w ok v).1.tailFxList = some t → n ≤ t) ∧
        n ≤ (rwWriteSettle s w ok v).1.nextBatch
      by_cases hc : s.crashed
      · have he : (rwWriteSettle s w ok v).1 = s := by simp [rwWriteSettle, hc]
        rw [he]
        exact ⟨h1, h2⟩
      · by_cases hxw : s.execWrite = some w
        · have he : (rwWriteSettle s w ok v).1 =
              (rwNext
                { s with execWrite := none,
                         settledWrites := s.settledWrites ++ [(w, ok, v)],
                         running := false, curItem := none }).1 := by
            simp [rwWriteSettle, hc, hxw]
          rw [he]
          obtain ⟨a1, a2, -, -, -, -, -⟩ := rwNext_frame
            { s with execWrite := none,
                     settledWrites := s.settledWrites ++ [(w, ok, v)],
                     running := false, curItem := none }
          rw [a1, a2]
          exact ⟨fun t ht => h1 t ht, h2⟩
        · have he : (rwWriteSettle s w ok v).1 = s := by
            simp [rwWriteSettle, hc, hxw]
          rw [he]
          exact ⟨h1, h2⟩

lemma rwExec_tail_mono (n : Nat) (s : RwState) (es : List REvent)
    (h1 : ∀ t, s.tailFxList = some t → n ≤ t) (h2 : n ≤ s.nextBatch) :
    ∀ t, (rwExec s es).tailFxList = some t → n ≤ t := by
  induction es generalizing s with
  | nil => exact h1
  | cons e es ih =>
      obtain ⟨g1, g2⟩ := rwStep_tail_mono n s e h1 h2
      exact ih _ g1 g2

lemma length_one_eq {α : Type} (l : List α) (a : α) (h1 : l.length = 1)
    (h2 : a ∈ l) : l = [a] := by
  cases l with
  | nil => simp at h2
  | cons x rest =>
      cases rest with
      | nil =>
          simp at h2
          simp [h2]
      | cons y r2 => simp at h1

lemma execRead_cur (s : RwState) (hs : RwInv s) (h b : Nat)
    (hx : pairLookup s.execReads h = some b) :
    s.curItem = some (Item.batch b) := by
  have hmem : (h, b) ∈ s.execReads := pairLookup_mem _ _ _ hx
  cases hc : s.curItem with
  | none =>
      obtain ⟨he, -, -⟩ := hs.noneQuiet hc
      rw [he] at hmem
      simp at hmem
  | some it =>
      cases it with
      | wr w =>
          obtain ⟨he, -, -⟩ := hs.wrQuiet w hc
          rw [he] at hmem
          simp at hmem
      | batch b' =>
          have hbb : b = b' := (hs.batchLive b' hc).2.2.2.2.2.1 (h, b) hmem
          rw [hbb]

lemma rwReadSettle_zero_eq (s : RwState) (hs : RwInv s) (h b : Nat)
    (ok : Bool) (v : Nat) (hx : pairLookup s.execReads h = some b)
    (hz : s.remaining = 1) :
    (rwReadSettle s h ok v).1 =
      (rwNext
        { s with execReads := pairErase s.execReads h,
                 settledReads := s.settledReads ++ [(h, ok, v)],
                 remaining := s.remaining - 1,
                 tailFxList :=
                   if s.tailFxList = some b then none else s.tailFxList,
                 batchSignalled := s.batchSignalled ++ [b],
                 running := false, curItem := none }).1 ∧
    (rwReadSettle s h ok v).2.head? = some (RObs.settledReadCaller h ok v) := by
  have hcur := execRead_cur s hs h b hx
  obtain ⟨-, hd, hns, -, -, -, -⟩ := hs.batchLive b hcur
  have hz' : s.remaining - 1 = 0 := by omega
  constructor
  · by_cases ht : s.tailFxList = some b
    · rw [if_pos ht]
      simp [rwReadSettle, invokeBatchDone, hs.notCrashed, hx, hz', ht, hd, hns]
    · rw [if_neg ht]
      simp [rwReadSettle, invokeBatchDone, hs.notCrashed, hx, hz', ht, hd, hns]
  · simp [rwReadSettle, hs.notCrashed, hx, hz']

lemma rwReadSettle_pos_eq (s : RwState) (hc : s.crashed = false) (h b : Nat)
    (ok : Bool) (v : Nat) (hx : pairLookup s.execReads h = some b)
    (hz : s.remaining ≠ 1) :
    (rwReadSettle s h ok v).1 =
      { s with execReads := pairErase s.execReads h,
               settledReads := s.settledReads ++ [(h, ok, v)],
               remaining := s.remaining - 1 } ∧
    (rwReadSettle s h ok v).2 = [RObs.settledReadCaller h ok v] := by
  have hz' : ¬(s.remaining - 1 = 0) := by omega
  constructor <;> simp [rwReadSettle, hc, hx, hz']

lemma mutexSettle_ok_indep (s : MutexState) (hs : MutexInv s) (h v : Nat)
    (hx : h ∈ s.executing) :
    MutexState.clearOutcomes (mutexSettle s h false v).1 =
      MutexState.clearOutcomes (mutexSettle s h true v).1 ∧
    (mutexSettle s h false v).2.tail = (mutexSettle s h true v).2.tail := by
  cases hq : s.queue with
  | nil =>
      constructor <;>
        simp [MutexState.clearOutcomes, mutexSettle, mutexSettlePre,
          mutexNext, hs.notCrashed, hx, hq]
  | cons a rest =>
      constructor <;>
        simp [MutexState.clearOutcomes, mutexSettle, mutexSettlePre,
          mutexNext, hs.notCrashed, hx, hq]

lemma rwNext_settled_congr (u : RwState) (X : List (Nat × Bool × Nat)) :
    (rwNext { u with settledReads := X }).1 =
      { (rwNext u).1 with settledReads := X } := by
  by_cases hr : u.running
  · simp [rwNext, hr]
  · cases hq : u.queue with
    | nil => simp [rwNext, hr, hq]
    | cons it rest =>
        cases it with
        | wr w => simp [rwNext, hr, hq, startItem]
        | batch b => simp [rwNext, hr, hq, startItem]

lemma invokeBatchDone_settled_congr (u : RwState) (X : List (Nat × Bool × Nat)) :
    (invokeBatchDone { u with settledReads := X }).1 =
      { (invokeBatchDone u).1 with settledReads := X } := by
  rcases Option.eq_none_or_eq_some u.batchDone with hd | ⟨d, hd⟩
  · simp [invokeBatchDone, hd]
  · by_cases hm : d ∈ u.batchSignalled
    · simp [invokeBatchDone, hd, hm]
    · have h0 := rwNext_settled_congr
        { u with batchSignalled := u.batchSignalled ++ [d],
                 running := false, curItem := none } X
      have he1 : (invokeBatchDone { u with settledReads := X }).1 =
          (rwNext
            { u with batchSignalled := u.batchSignalled ++ [d],
                     running := false, curItem := none,
                     settledReads := X }).1 := by
        simp [invokeBatchDone, hd, hm]
      have he2 : (invokeBatchDone u).1 =
          (rwNext
            { u with batchSignalled := u.batchSignalled ++ [d],
                     running := false, curItem := none }).1 := by
        simp [invokeBatchDone, hd, hm]
      rw [he1, he2]
      exact h0

lemma rwReadSettle_ok_indep (t : RwState) (ht : RwInv t) (r b ev : Nat)
    (hr : pairLookup t.execReads r = some b) :
    RwState.clearOutcomes (rwReadSettle t r false ev).1 =
      RwState.clearOutcomes (rwReadSettle t r true ev).1 := by
  by_cases hz : t.remaining = 1
  · obtain ⟨hef, -⟩ := rwReadSettle_zero_eq t ht r b false ev hr hz
    obtain ⟨het, -⟩ := rwReadSettle_zero_eq t ht r b true ev hr hz
    rw [hef, het]
    have hcf := rwNext_settled_congr
      { t with execReads := pairErase t.execReads r,
               remaining := t.remaining - 1,
               tailFxList :=
                 if t.tailFxList = some b then none else t.tailFxList,
               batchSignalled := t.batchSignalled ++ [b],
               running := false, curItem := none }
      (t.settledReads ++ [(r, false, ev)])
    have hct := rwNext_settled_congr
      { t with execReads := pairErase t.execReads r,
               remaining := t.remaining - 1,
               tailFxList :=
                 if t.tailFxList = some b then none else t.tailFxList,
               batchSignalled := t.batchSignalled ++ [b],
               running := false, curItem := none }
      (t.settledReads ++ [(r, true, ev)])
    rw [show (rwNext
        { t with execReads := pairErase t.execReads r,
                 settledReads := t.settledReads ++ [(r, false, ev)],
                 remaining := t.remaining - 1,
                 tailFxList :=
                   if t.tailFxList = some b then none else t.tailFxList,
                 batchSignalled := t.batchSignalled ++ [b],
                 running := false, curItem := none }).1 =
      { (rwNext
        { t with execReads := pairErase t.execReads r,
                 remaining := t.remaining - 1,
                 tailFxList :=
                   if t.tailFxList = some b then none else t.tailFxList,
                 batchSignalled := t.batchSignalled ++ [b],
                 running := false, curItem := none }).1 with
        settledReads := t.settledReads ++ [(r, false, ev)] } from hcf]
    rw [show (rwNext
        { t with execReads := pairErase t.execReads r,
                 settledReads := t.settledReads ++ [(r, true, ev)],
                 remaining := t.remaining - 1,
                 tailFxList :=
                   if t.tailFxList = some b then none else t.tailFxList,
                 batchSignalled := t.batchSignalled ++ [b],
                 running := false, curItem := none }).1 =
      { (rwNext
        { t with execReads := pairErase t.execReads r,
                 remaining := t.remaining - 1,
                 tailFxList :=
                   if t.tailFxList = some b then none else t.tailFxList,
                 batchSignalled := t.batchSignalled ++ [b],
                 running := false, curItem := none }).1 with
        settledReads := t.settledReads ++ [(r, true, ev)] } from hct]
    rfl
  · obtain ⟨hef, -⟩ := rwReadSettle_pos_eq t ht.notCrashed r b false ev hr hz
    obtain ⟨het, -⟩ := rwReadSettle_pos_eq t ht.notCrashed r b true ev hr hz
    rw [hef, het]
    rfl

lemma rwReadSettle_zero_frame (s : RwState) (hs : RwInv s) (h b : Nat)
    (ok : Bool) (v : Nat) (hx : pairLookup s.execReads h = some b)
    (hz : s.remaining = 1) :
    (rwReadSettle s h ok v).1.batchSignalled = s.batchSignalled ++ [b] ∧
    (rwReadSettle s h ok v).1.tailFxList =
      (if s.tailFxList = some b then none else s.tailFxList) ∧
    (rwReadSettle s h ok v).1.settledReads = s.settledReads ++ [(h, ok, v)] := by
  obtain ⟨hef, -⟩ := rwReadSettle_zero_eq s hs h b ok v hx hz
  rw [hef]
  obtain ⟨a1, -, a3, a4, -, -, -⟩ := rwNext_frame
    { s with execReads := pairErase s.execReads h,
             settledReads := s.settledReads ++ [(h, ok, v)],
             remaining := s.remaining - 1,
             tailFxList :=
               if s.tailFxList = some b then none else s.tailFxList,
             batchSignalled := s.batchSignalled ++ [b],
             running := false, curItem := none }
  rw [a1, a3, a4]
  exact ⟨rfl, rfl, rfl⟩

/-- C1: For every sequence of `Mutex.run` calls and settlements of running
handlers, at most one handler is ever mid-execution at any time, and handlers
begin execution in submission order: the start history followed by the
still-queued handlers equals the submission history, so the start order is a
prefix of the FIFO submission order. -/
theorem mutex_run_fifo_exclusive (es : List MEvent) :
    (mutexExec MutexState.init es).executing.length ≤ 1 ∧
    (mutexExec MutexState.init es).startedList ++
        (mutexExec MutexState.init es).queue =
      (mutexExec MutexState.init es).submittedList ∧
    (mutexExec MutexState.init es).startedList <+:
      (mutexExec MutexState.init es).submittedList := by
  have hinv := mutexExec_inv es _ mutexInv_init
  exact ⟨hinv.atMostOne, hinv.fifo, ⟨_, hinv.fifo⟩⟩

/-- C7: When the running work item of a `Mutex` settles, the caller's promise
is settled before the next queued item starts (the settlement observation
strictly precedes every start observation of the same synchronous step), and
the idle-to-start-next transition completes inside that step: afterwards the
lock is never observably idle with work still queued. -/
theorem mutex_settle_before_next_start (s : MutexState)
    (hs : MutexReachable s) (h : Nat) (ok : Bool) (v : Nat)
    (hx : h ∈ s.executing) :
    (∃ tl, (mutexSettle s h ok v).2 = MObs.settledCaller h ok v :: tl ∧
        ∀ o ∈ tl, ∃ h2, o = MObs.startedHandler h2) ∧
    ((mutexSettle s h ok v).1.isIdle = true →
      (mutexSettle s h ok v).1.queue = []) := by
  have hinv := mutexReachable_inv s hs
  constructor
  · have he : (mutexSettle s h ok v).2 =
        MObs.settledCaller h ok v ::
          (mutexNext (mutexSettlePre s h ok v)).2 := by
      simp [mutexSettle, hinv.notCrashed, hx]
    exact ⟨(mutexNext (mutexSettlePre s h ok v)).2, he,
      fun o ho => mutexNext_obs _ o ho⟩
  · intro hi
    refine (mutexSettle_inv s hinv h ok v).idleDrained ?_
    simpa [MutexState.isIdle] using hi

/-- C7 witness: a mutex with handler 5 mid-execution; its settlement settles
the caller first and leaves no idle-with-pending-queue state. -/
theorem mutex_settle_before_next_start_witness :
    MutexReachable (mutexExec MutexState.init [MEvent.run 5]) ∧
    5 ∈ (mutexExec MutexState.init [MEvent.run 5]).executing ∧
    ((∃ tl, (mutexSettle (mutexExec MutexState.init [MEvent.run 5]) 5 true 7).2 =
          MObs.settledCaller 5 true 7 :: tl ∧
        ∀ o ∈ tl, ∃ h2, o = MObs.startedHandler h2) ∧
      ((mutexSettle (mutexExec MutexState.init [MEvent.run 5]) 5 true 7).1.isIdle = true →
        (mutexSettle (mutexExec MutexState.init [MEvent.run 5]) 5 true 7).1.queue = [])) :=
  ⟨⟨[MEvent.run 5], rfl⟩, by decide,
    mutex_settle_before_next_start _ ⟨[MEvent.run 5], rfl⟩ 5 true 7 (by decide)⟩

/-- C8: A mutex starts idle; in every reachable state `isIdle()` is false
exactly while a handler is mid-execution; and in the instant after a
settlement assigns `running = false` (before `next()` runs) the mutex is
momentarily idle. -/
theorem mutex_isIdle_exact (s : MutexState) (hs : MutexReachable s) :
    MutexState.init.isIdle = true ∧
    (s.isIdle = false ↔ s.executing ≠ []) ∧
    (∀ h ok v, (mutexSettlePre s h ok v).isIdle = true) := by
  have hinv := mutexReachable_inv s hs
  refine ⟨rfl, ?_, fun h ok v => rfl⟩
  constructor
  · intro hf
    refine hinv.runIff.mp ?_
    simpa [MutexState.isIdle] using hf
  · intro hne
    have hr := hinv.runIff.mpr hne
    simp [MutexState.isIdle, hr]

/-- C8 witness: instantiation at the freshly constructed mutex. -/
theorem mutex_isIdle_exact_witness :
    MutexReachable MutexState.init ∧
    (MutexState.init.isIdle = true ∧
      (MutexState.init.isIdle = false ↔ MutexState.init.executing ≠ []) ∧
      (∀ h ok v, (mutexSettlePre MutexState.init h ok v).isIdle = true)) :=
  ⟨⟨[], rfl⟩, mutex_isIdle_exact MutexState.init ⟨[], rfl⟩⟩

/-- C6: A handler failure is propagated verbatim to the caller's promise
(the recorded outcome carries the same error value), and processing then
continues exactly as on success: apart from the recorded outcome, the
post-settlement state equals the one a successful settlement would produce
(same queue advance, same `remaining` decrement), the same next item starts,
and the failed handler is neither executing nor re-queued. -/
theorem handler_failure_propagates (s : MutexState) (t : RwState)
    (hs : MutexReachable s) (ht : RwReachable t) (h r b ev : Nat)
    (hx : h ∈ s.executing) (hq : h ∉ s.queue)
    (hr : pairLookup t.execReads r = some b) :
    (mutexSettle s h false ev).1.settledList =
      s.settledList ++ [(h, false, ev)] ∧
    MutexState.clearOutcomes (mutexSettle s h false ev).1 =
      MutexState.clearOutcomes (mutexSettle s h true ev).1 ∧
    (mutexSettle s h false ev).2.tail = (mutexSettle s h true ev).2.tail ∧
    h ∉ (mutexSettle s h false ev).1.executing ∧
    h ∉ (mutexSettle s h false ev).1.queue ∧
    (rwReadSettle t r false ev).1.settledReads =
      t.settledReads ++ [(r, false, ev)] ∧
    (t.remaining ≠ 1 →
      (rwReadSettle t r false ev).1.remaining = t.remaining - 1) ∧
    RwState.clearOutcomes (rwReadSettle t r false ev).1 =
      RwState.clearOutcomes (rwReadSettle t r true ev).1 := by
  have hsi := mutexReachable_inv s hs
  have hti := rwReachable_inv t ht
  obtain ⟨hco, htr⟩ := mutexSettle_ok_indep s hsi h ev hx
  have hex : s.executing = [h] := length_le_one_mem _ _ hsi.atMostOne hx
  refine ⟨?_, hco, htr, ?_, ?_, ?_, ?_,
    rwReadSettle_ok_indep t hti r b ev hr⟩
  · have he : (mutexSettle s h false ev).1 =
        (mutexNext (mutexSettlePre s h false ev)).1 := by
      simp [mutexSettle, hsi.notCrashed, hx]
    rw [he, (mutexNext_frame (mutexSettlePre s h false ev)).2]
    rfl
  · cases hqq : s.queue with
    | nil =>
        have he : (mutexSettle s h false ev).1.executing = [] := by
          simp [mutexSettle, mutexSettlePre, mutexNext, hsi.notCrashed,
            hx, hqq, hex]
        rw [he]
        simp
    | cons a rest =>
        have ha : h ≠ a := by
          intro hah
          apply hq
          rw [hqq, hah]
          simp
        have he : (mutexSettle s h false ev).1.executing = [a] := by
          simp [mutexSettle, mutexSettlePre, mutexNext, hsi.notCrashed,
            hx, hqq, hex]
        rw [he]
        simp [ha]
  · cases hqq : s.queue with
    | nil =>
        have he : (mutexSettle s h false ev).1.queue = [] := by
          simp [mutexSettle, mutexSettlePre, mutexNext, hsi.notCrashed,
            hx, hqq]
        rw [he]
        simp
    | cons a rest =>
        have hrest : h ∉ rest := by
          intro hmem
          apply hq
          rw [hqq]
          simp [hmem]
        have he : (mutexSettle s h false ev).1.queue = rest := by
          simp [mutexSettle, mutexSettlePre, mutexNext, hsi.notCrashed,
            hx, hqq]
        rw [he]
        exact hrest
  · by_cases hz : t.remaining = 1
    · exact (rwReadSettle_zero_frame t hti r b false ev hr hz).2.2
    · obtain ⟨hef, -⟩ := rwReadSettle_pos_eq t hti.notCrashed r b false ev hr hz
      rw [hef]
  · intro hz
    obtain ⟨hef, -⟩ := rwReadSettle_pos_eq t hti.notCrashed r b false ev hr hz
    rw [hef]

/-- C6 witness: a rejecting mutex handler with another queued behind it, and
a rejecting read in a two-member batch. -/
theorem handler_failure_propagates_witness :
    MutexReachable (mutexExec MutexState.init [MEvent.run 5, MEvent.run 6]) ∧
    RwReachable (rwExec RwState.init [REvent.read 7, REvent.read 8]) ∧
    5 ∈ (mutexExec MutexState.init [MEvent.run 5, MEvent.run 6]).executing ∧
    5 ∉ (mutexExec MutexState.init [MEvent.run 5, MEvent.run 6]).queue ∧
    pairLookup (rwExec RwState.init
      [REvent.read 7, REvent.read 8]).execReads 7 = some 0 ∧
    ((mutexSettle (mutexExec MutexState.init
        [MEvent.run 5, MEvent.run 6]) 5 false 3).1.settledList =
      (mutexExec MutexState.init
        [MEvent.run 5, MEvent.run 6]).settledList ++ [(5, false, 3)] ∧
    MutexState.clearOutcomes (mutexSettle (mutexExec MutexState.init
        [MEvent.run 5, MEvent.run 6]) 5 false 3).1 =
      MutexState.clearOutcomes (mutexSettle (mutexExec MutexState.init
        [MEvent.run 5, MEvent.run 6]) 5 true 3).1 ∧
    (mutexSettle (mutexExec MutexState.init
        [MEvent.run 5, MEvent.run 6]) 5 false 3).2.tail =
      (mutexSettle (mutexExec MutexState.init
        [MEvent.run 5, MEvent.run 6]) 5 true 3).2.tail ∧
    5 ∉ (mutexSettle (mutexExec MutexState.init
        [MEvent.run 5, MEvent.run 6]) 5 false 3).1.executing ∧
    5 ∉ (mutexSettle (mutexExec MutexState.init
        [MEvent.run 5, MEvent.run 6]) 5 false 3).1.queue ∧
    (rwReadSettle (rwExec RwState.init
        [REvent.read 7, REvent.read 8]) 7 false 3).1.settledReads =
      (rwExec RwState.init
        [REvent.read 7, REvent.read 8]).settledReads ++ [(7, false, 3)] ∧
    ((rwExec RwState.init [REvent.read 7, REvent.read 8]).remaining ≠ 1 →
      (rwReadSettle (rwExec RwState.init
          [REvent.read 7, REvent.read 8]) 7 false 3).1.remaining =
        (rwExec RwState.init [REvent.read 7, REvent.read 8]).remaining - 1) ∧
    RwState.clearOutcomes (rwReadSettle (rwExec RwState.init
        [REvent.read 7, REvent.read 8]) 7 false 3).1 =
      RwState.clearOutcomes (rwReadSettle (rwExec RwState.init
        [REvent.read 7, REvent.read 8]) 7 true 3).1) :=
  ⟨⟨[MEvent.run 5, MEvent.run 6], rfl⟩, ⟨[REvent.read 7, REvent.read 8], rfl⟩,
    by decide, by decide, by decide,
    handler_failure_propagates _ _ ⟨[MEvent.run 5, MEvent.run 6], rfl⟩
      ⟨[REvent.read 7, REvent.read 8], rfl⟩ 5 7 0 3
      (by decide) (by decide) (by decide)⟩

/-- C9 counterexample: execution of a handler is not always deferred past the
call: on an idle lock, `run` (and similarly `read`) synchronously starts the
handler inside the call itself — after `mutexRun`/`rwRead` return, the
handler is already recorded as started and mid-execution, refuting
"deferring all execution of the handler to later suspension points". -/
theorem run_defers_all_execution_cex :
    (mutexRun MutexState.init 0).1.executing = [0] ∧
    (mutexRun MutexState.init 0).1.startedList = [0] ∧
    (rwRead RwState.init 0).1.execReads = [(0, 0)] ∧
    (rwRead RwState.init 0).1.startedReads = [0] := by decide

/-- C9 (amended): `run`, `read` and `write` are non-awaiting at the call
site: each call records its submission and returns synchronously, and when
the lock is busy the handler is only queued, with no execution during the
call; but when the lock is free (or, for `read`, when the tail batch is
already running) the handler's first segment begins executing synchronously
within the call itself.  Callers may issue subsequent calls without awaiting
earlier ones. -/
theorem calls_enqueue_and_return_synchronously (s : MutexState) (t : RwState)
    (hs : MutexReachable s) (ht : RwReachable t) (h w r : Nat) :
    (mutexRun s h).1.submittedList = s.submittedList ++ [h] ∧
    (s.running = true → (mutexRun s h).1.executing = s.executing ∧
        (mutexRun s h).1.queue = s.queue ++ [h]) ∧
    (s.running = false → (mutexRun s h).1.executing = [h]) ∧
    (rwRead t r).1.submittedReads = t.submittedReads ++ [r] ∧
    ((rwRead t r).1.execReads = t.execReads ∨
        ∃ b, (rwRead t r).1.execReads = t.execReads ++ [(r, b)]) ∧
    (rwWrite t w).1.submittedWrites = t.submittedWrites ++ [w] ∧
    (t.running = true → (rwWrite t w).1.execWrite = t.execWrite) ∧
    (t.running = false → (rwWrite t w).1.execWrite = some w) := by
  have hsi := mutexReachable_inv s hs
  have hti := rwReachable_inv t ht
  refine ⟨?_, ?_, ?_, ?_, ?_, ?_, ?_, ?_⟩
  · cases hrn : s.running with
    | true => simp [mutexRun, hsi.notCrashed, hrn]
    | false =>
        have he : (mutexRun s h).1 =
            (mutexNext { s with queue := s.queue ++ [h],
                                submittedList := s.submittedList ++ [h] }).1 := by
          simp [mutexRun, hsi.notCrashed, hrn]
        rw [he, (mutexNext_frame
          { s with queue := s.queue ++ [h],
                   submittedList := s.submittedList ++ [h] }).1]
  · intro hrn
    constructor <;> simp [mutexRun, hsi.notCrashed, hrn]
  · intro hrn
    have hxe : s.executing = [] := by
      have hiff := hsi.runIff
      simp [hrn] at hiff
      exact hiff
    have hq0 : s.queue = [] := hsi.idleDrained hrn
    simp [mutexRun, mutexNext, hsi.notCrashed, hrn, hq0, hxe]
  · cases htl : t.tailFxList with
    | none =>
        cases hrn : t.running with
        | true => simp [rwRead, rwMutexRun, hti.notCrashed, htl, hrn]
        | false =>
            have he : (rwRead t r).1 =
                (rwMutexRun
                  { t with submittedReads := t.submittedReads ++ [r],
                           nextBatch := t.nextBatch + 1,
                           tailFxList := some t.nextBatch,
                           members := t.members ++ [(t.nextBatch, [r])] }
                  (Item.batch t.nextBatch)).1 := by
              simp [rwRead, hti.notCrashed, htl]
            rw [he, ((rwMutexRun_frame
              { t with submittedReads := t.submittedReads ++ [r],
                       nextBatch := t.nextBatch + 1,
                       tailFxList := some t.nextBatch,
                       members := t.members ++ [(t.nextBatch, [r])] }
              (Item.batch t.nextBatch)).2.2.1)]
    | some b =>
        by_cases hql : 0 < t.queue.length <;>
          simp [rwRead, hti.notCrashed, htl, hql]
  · cases htl : t.tailFxList with
    | none =>
        cases hrn : t.running with
        | true =>
            left
            simp [rwRead, rwMutexRun, hti.notCrashed, htl, hrn]
        | false =>
            right
            refine ⟨t.nextBatch, ?_⟩
            obtain ⟨hq0, -⟩ := hti.idleState hrn
            have hnm : t.nextBatch ∉ t.members.map Prod.fst := by
              rw [hti.memKeys]
              simp
            simp [rwRead, rwMutexRun, rwNext, startItem, hti.notCrashed,
              htl, hrn, hq0, mlookup_append, hnm, mlookup]
    | some b =>
        by_cases hql : 0 < t.queue.length
        · left
          simp [rwRead, hti.notCrashed, htl, hql]
        · right
          exact ⟨b, by simp [rwRead, hti.notCrashed, htl, hql]⟩
  · cases hrn : t.running with
    | true => simp [rwWrite, rwMutexRun, hti.notCrashed, hrn]
    | false =>
        have he : (rwWrite t w).1 =
            (rwMutexRun { t with tailFxList := none,
                                 submittedWrites := t.submittedWrites ++ [w] }
              (Item.wr w)).1 := by
          simp [rwWrite, hti.notCrashed]
        rw [he, ((rwMutexRun_frame
          { t with tailFxList := none,
                   submittedWrites := t.submittedWrites ++ [w] }
          (Item.wr w)).2.2.2)]
  · intro hrn
    simp [rwWrite, rwMutexRun, hti.notCrashed, hrn]
  · intro hrn
    obtain ⟨hq0, -⟩ := hti.idleState hrn
    simp [rwWrite, rwMutexRun, rwNext, startItem, hti.notCrashed, hrn, hq0]

/-- C9 (amended) witness: instantiation at the freshly constructed locks. -/
theorem calls_enqueue_and_return_synchronously_witness :
    MutexReachable MutexState.init ∧ RwReachable RwState.init ∧
    ((mutexRun MutexState.init 0).1.submittedList =
        MutexState.init.submittedList ++ [0] ∧
      (MutexState.init.running = true →
        (mutexRun MutexState.init 0).1.executing = MutexState.init.executing ∧
        (mutexRun MutexState.init 0).1.queue = MutexState.init.queue ++ [0]) ∧
      (MutexState.init.running = false →
        (mutexRun MutexState.init 0).1.executing = [0]) ∧
      (rwRead RwState.init 0).1.submittedReads =
        RwState.init.submittedReads ++ [0] ∧
      ((rwRead RwState.init 0).1.execReads = RwState.init.execReads ∨
        ∃ b, (rwRead RwState.init 0).1.execReads =
          RwState.init.execReads ++ [(0, b)]) ∧
      (rwWrite RwState.init 1).1.submittedWrites =
        RwState.init.submittedWrites ++ [1] ∧
      (RwState.init.running = true →
        (rwWrite RwState.init 1).1.execWrite = RwState.init.execWrite) ∧
      (RwState.init.running = false →
        (rwWrite RwState.init 1).1.execWrite = some 1)) :=
  ⟨⟨[], rfl⟩, ⟨[], rfl⟩,
    calls_enqueue_and_return_synchronously MutexState.init RwState.init
      ⟨[], rfl⟩ ⟨[], rfl⟩ 0 1 0⟩

/-- C10: The invariant-violation branches abort (set the crash flag):
`Mutex.next` throws if invoked while a work item is running (likewise the
rwlock's internal mutex), and the batch completion path throws if `batchDone`
is unset when `remaining` reaches zero; and under every sequence of public
calls with settling handlers these branches are unreachable: no reachable
state of either machine is crashed. -/
theorem invariant_violations_abort (s : MutexState) (t : RwState)
    (hs : MutexReachable s) (ht : RwReachable t) :
    s.crashed = false ∧ t.crashed = false ∧
    (∀ u : MutexState, u.running = true → (mutexNext u).1.crashed = true) ∧
    (∀ u : RwState, u.running = true → (rwNext u).1.crashed = true) ∧
    (∀ u : RwState, u.batchDone = none →
      (invokeBatchDone u).1.crashed = true) := by
  refine ⟨(mutexReachable_inv s hs).notCrashed,
    (rwReachable_inv t ht).notCrashed, ?_, ?_, ?_⟩
  · intro u hu
    simp [mutexNext, hu]
  · intro u hu
    simp [rwNext, hu]
  · intro u hu
    simp [invokeBatchDone, hu]

/-- C2: While a read batch's members execute, `remaining` equals the number
of mid-flight members (joiners included) and no write is mid-execution; in
any reachable state where a write is mid-execution every batch member has
settled; settling a member invokes the batch release signal exactly when
`remaining` reaches zero, at which point `tailFxList` is reset to `None`
only if no write (or later batch) has superseded the descriptor; otherwise
the batch work item keeps the mutex. -/
theorem rw_batch_release_at_zero (s : RwState) (hs : RwReachable s)
    (h b : Nat) (ok : Bool) (v : Nat)
    (hx : pairLookup s.execReads h = some b) :
    s.remaining = (s.execReads.length : Int) ∧
    (∀ w, s.curItem ≠ some (Item.wr w)) ∧
    (∀ u : RwState, RwReachable u → ∀ w, u.curItem = some (Item.wr w) →
        u.execReads = []) ∧
    ((rwReadSettle s h ok v).1.batchSignalled = s.batchSignalled ++ [b] ↔
        s.remaining = 1) ∧
    (s.remaining = 1 →
        (rwReadSettle s h ok v).1.tailFxList =
          (if s.tailFxList = some b then none else s.tailFxList)) ∧
    (s.remaining ≠ 1 →
        (rwReadSettle s h ok v).1.batchSignalled = s.batchSignalled ∧
        (rwReadSettle s h ok v).1.curItem = s.curItem ∧
        (rwReadSettle s h ok v).1.running = true) := by
  have hinv := rwReachable_inv s hs
  have hcur := execRead_cur s hinv h b hx
  obtain ⟨hw, hd, hns, hrem, hge, hall, hst⟩ := hinv.batchLive b hcur
  have hrun : s.running = true := hinv.runIff.mpr (by rw [hcur]; simp)
  refine ⟨hrem, ?_, ?_, ?_, ?_, ?_⟩
  · intro w hww
    rw [hcur] at hww
    simp at hww
  · intro u hu w huw
    exact ((rwReachable_inv u hu).wrQuiet w huw).1
  · by_cases hz : s.remaining = 1
    · have hsig := (rwReadSettle_zero_frame s hinv h b ok v hx hz).1
      rw [hsig]
      simp [hz]
    · obtain ⟨hef, -⟩ := rwReadSettle_pos_eq s hinv.notCrashed h b ok v hx hz
      rw [hef]
      constructor
      · intro hcontra
        have hlen := congrArg List.length hcontra
        simp at hlen
      · intro hcontra
        exact absurd hcontra hz
  · intro hz
    exact (rwReadSettle_zero_frame s hinv h b ok v hx hz).2.1
  · intro hz
    obtain ⟨hef, -⟩ := rwReadSettle_pos_eq s hinv.notCrashed h b ok v hx hz
    rw [hef]
    exact ⟨rfl, rfl, hrun⟩

/-- C2 witness: a one-member running batch; its settlement releases the
batch and resets the descriptor. -/
theorem rw_batch_release_at_zero_witness :
    RwReachable (rwExec RwState.init [REvent.read 3]) ∧
    pairLookup (rwExec RwState.init [REvent.read 3]).execReads 3 = some 0 ∧
    ((rwExec RwState.init [REvent.read 3]).remaining =
        ((rwExec RwState.init [REvent.read 3]).execReads.length : Int) ∧
      (∀ w, (rwExec RwState.init [REvent.read 3]).curItem ≠
          some (Item.wr w)) ∧
      (∀ u : RwState, RwReachable u → ∀ w, u.curItem = some (Item.wr w) →
          u.execReads = []) ∧
      ((rwReadSettle (rwExec RwState.init [REvent.read 3]) 3 true 9).1.batchSignalled =
          (rwExec RwState.init [REvent.read 3]).batchSignalled ++ [0] ↔
        (rwExec RwState.init [REvent.read 3]).remaining = 1) ∧
      ((rwExec RwState.init [REvent.read 3]).remaining = 1 →
        (rwReadSettle (rwExec RwState.init [REvent.read 3]) 3 true 9).1.tailFxList =
          (if (rwExec RwState.init [REvent.read 3]).tailFxList = some 0
            then none
            else (rwExec RwState.init [REvent.read 3]).tailFxList)) ∧
      ((rwExec RwState.init [REvent.read 3]).remaining ≠ 1 →
        (rwReadSettle (rwExec RwState.init [REvent.read 3]) 3 true 9).1.batchSignalled =
            (rwExec RwState.init [REvent.read 3]).batchSignalled ∧
          (rwReadSettle (rwExec RwState.init [REvent.read 3]) 3 true 9).1.curItem =
            (rwExec RwState.init [REvent.read 3]).curItem ∧
          (rwReadSettle (rwExec RwState.init [REvent.read 3]) 3 true 9).1.running =
            true)) :=
  ⟨⟨[REvent.read 3], rfl⟩, by decide,
    rw_batch_release_at_zero _ ⟨[REvent.read 3], rfl⟩ 3 0 true 9 (by decide)⟩

/-- C3: On a `read` call while a batch descriptor exists: if the internal
mutex queue is non-empty, the batch's sealing work item is still queued (its
batch has not started), and the handler is appended to the descriptor's
member list with no change to the executing reads; if the queue is empty, the
batch's work item is the one currently running, `remaining` is incremented by
one, and the handler begins executing immediately with the same completion
bookkeeping (it joins `execReads` paired with the same descriptor). -/
theorem rw_read_join_dichotomy (s : RwState) (hs : RwReachable s) (t h : Nat)
    (ht : s.tailFxList = some t) :
    (s.queue ≠ [] →
        (∃ q', s.queue = q' ++ [Item.batch t]) ∧
        t ∉ s.startedBatches ∧
        mlookup (rwRead s h).1.members t = mlookup s.members t ++ [h] ∧
        (rwRead s h).1.execReads = s.execReads ∧
        (rwRead s h).1.remaining = s.remaining) ∧
    (s.queue = [] →
        s.curItem = some (Item.batch t) ∧
        t ∈ s.startedBatches ∧
        (rwRead s h).1.remaining = s.remaining + 1 ∧
        (rwRead s h).1.execReads = s.execReads ++ [(h, t)]) := by
  have hinv := rwReachable_inv s hs
  constructor
  · intro hq
    have hpos : ∃ q', s.queue = q' ++ [Item.batch t] := by
      rcases hinv.tailPos t ht with ⟨hq0, -⟩ | hx
      · exact absurd hq0 hq
      · exact hx
    obtain ⟨q', hq'⟩ := hpos
    have hbq : t ∈ qbatches s.queue := by
      rw [hq', qbatches_append]
      simp [qbatches]
    obtain ⟨hm, hnst⟩ := hinv.queuedBatch t hbq
    have hkm : t ∈ s.members.map Prod.fst := mlookup_ne_nil_mem _ _ hm
    have hql : 0 < s.queue.length := by
      cases hqq : s.queue with
      | nil => exact absurd hqq hq
      | cons a as => simp [hqq]
    have he : (rwRead s h).1 =
        { s with submittedReads := s.submittedReads ++ [h],
                 members := mpush s.members t h } := by
      simp [rwRead, hinv.notCrashed, ht, hql]
    rw [he]
    refine ⟨⟨q', hq'⟩, hnst, ?_, rfl, rfl⟩
    show mlookup (mpush s.members t h) t = mlookup s.members t ++ [h]
    exact mlookup_mpush_self _ _ _ hkm
  · intro hq0
    have hcur : s.curItem = some (Item.batch t) := by
      rcases hinv.tailPos t ht with ⟨-, hc⟩ | ⟨q', hq'⟩
      · exact hc
      · rw [hq0] at hq'
        simp at hq'
    have hst : t ∈ s.startedBatches := (hinv.batchLive t hcur).2.2.2.2.2.2
    have hql : ¬(0 < s.queue.length) := by simp [hq0]
    have he : (rwRead s h).1 =
        { s with submittedReads := s.submittedReads ++ [h],
                 remaining := s.remaining + 1,
                 execReads := s.execReads ++ [(h, t)],
                 startedReads := s.startedReads ++ [h] } := by
      simp [rwRead, hinv.notCrashed, ht, hql]
    rw [he]
    exact ⟨hcur, hst, rfl, rfl⟩

/-- C3 witness: a queued tail batch behind a write, and a read that joins it
while it is still queued. -/
theorem rw_read_join_dichotomy_witness :
    RwReachable (rwExec RwState.init
      [REvent.read 1, REvent.write 2, REvent.read 3]) ∧
    (rwExec RwState.init
      [REvent.read 1, REvent.write 2, REvent.read 3]).tailFxList = some 1 ∧
    (((rwExec RwState.init
        [REvent.read 1, REvent.write 2, REvent.read 3]).queue ≠ [] →
      (∃ q', (rwExec RwState.init
          [REvent.read 1, REvent.write 2, REvent.read 3]).queue =
            q' ++ [Item.batch 1]) ∧
      1 ∉ (rwExec RwState.init
          [REvent.read 1, REvent.write 2, REvent.read 3]).startedBatches ∧
      mlookup (rwRead (rwExec RwState.init
          [REvent.read 1, REvent.write 2, REvent.read 3]) 4).1.members 1 =
        mlookup (rwExec RwState.init
          [REvent.read 1, REvent.write 2, REvent.read 3]).members 1 ++ [4] ∧
      (rwRead (rwExec RwState.init
          [REvent.read 1, REvent.write 2, REvent.read 3]) 4).1.execReads =
        (rwExec RwState.init
          [REvent.read 1, REvent.write 2, REvent.read 3]).execReads ∧
      (rwRead (rwExec RwState.init
          [REvent.read 1, REvent.write 2, REvent.read 3]) 4).1.remaining =
        (rwExec RwState.init
          [REvent.read 1, REvent.write 2, REvent.read 3]).remaining) ∧
    ((rwExec RwState.init
        [REvent.read 1, REvent.write 2, REvent.read 3]).queue = [] →
      (rwExec RwState.init
          [REvent.read 1, REvent.write 2, REvent.read 3]).curItem =
        some (Item.batch 1) ∧
      1 ∈ (rwExec RwState.init
          [REvent.read 1, REvent.write 2, REvent.read 3]).startedBatches ∧
      (rwRead (rwExec RwState.init
          [REvent.read 1, REvent.write 2, REvent.read 3]) 4).1.remaining =
        (rwExec RwState.init
          [REvent.read 1, REvent.write 2, REvent.read 3]).remaining + 1 ∧
      (rwRead (rwExec RwState.init
          [REvent.read 1, REvent.write 2, REvent.read 3]) 4).1.execReads =
        (rwExec RwState.init
          [REvent.read 1, REvent.write 2, REvent.read 3]).execReads ++
          [(4, 1)])) :=
  ⟨⟨[REvent.read 1, REvent.write 2, REvent.read 3], rfl⟩, by decide,
    rw_read_join_dichotomy _
      ⟨[REvent.read 1, REvent.write 2, REvent.read 3], rfl⟩ 1 4 (by decide)⟩

/-- C4: A `write` call clears `tailFxList` to `None` and submits the handler
to the exclusive lock's `run` (queued behind the running item, or started
immediately when the lock is idle); and after the write, no later point of
any continuation can have a joinable batch descriptor allocated before the
write: every subsequent `tailFxList` value is a batch created after it. -/
theorem rw_write_resets_batch (s : RwState) (hs : RwReachable s) (w : Nat)
    (es : List REvent) :
    (rwWrite s w).1.tailFxList = none ∧
    (rwWrite s w).1.submittedWrites = s.submittedWrites ++ [w] ∧
    (s.running = true → (rwWrite s w).1.queue = s.queue ++ [Item.wr w]) ∧
    (s.running = false → (rwWrite s w).1.curItem = some (Item.wr w)) ∧
    (∀ t, (rwExec (rwWrite s w).1 es).tailFxList = some t →
      s.nextBatch ≤ t) := by
  have hinv := rwReachable_inv s hs
  have he : (rwWrite s w).1 =
      (rwMutexRun { s with tailFxList := none,
                           submittedWrites := s.submittedWrites ++ [w] }
        (Item.wr w)).1 := by
    simp [rwWrite, hinv.notCrashed]
  obtain ⟨a1, a2, -, a4⟩ := rwMutexRun_frame
    { s with tailFxList := none,
             submittedWrites := s.submittedWrites ++ [w] } (Item.wr w)
  have htail : (rwWrite s w).1.tailFxList = none := by rw [he, a1]
  have hnb : (rwWrite s w).1.nextBatch = s.nextBatch := by rw [he, a2]
  refine ⟨htail, by rw [he, a4], ?_, ?_, ?_⟩
  · intro hr
    simp [rwWrite, rwMutexRun, hinv.notCrashed, hr]
  · intro hr
    obtain ⟨hq0, -⟩ := hinv.idleState hr
    simp [rwWrite, rwMutexRun, rwNext, startItem, hinv.notCrashed, hr, hq0]
  · refine rwExec_tail_mono s.nextBatch _ es ?_ ?_
    · intro t ht2
      rw [htail] at ht2
      exact Option.noConfusion ht2
    · rw [hnb]

/-- C4 witness: a write issued while a batch is running; a read after it
joins only a batch allocated after the write. -/
theorem rw_write_resets_batch_witness :
    RwReachable (rwExec RwState.init [REvent.read 1]) ∧
    ((rwWrite (rwExec RwState.init [REvent.read 1]) 2).1.tailFxList = none ∧
      (rwWrite (rwExec RwState.init [REvent.read 1]) 2).1.submittedWrites =
        (rwExec RwState.init [REvent.read 1]).submittedWrites ++ [2] ∧
      ((rwExec RwState.init [REvent.read 1]).running = true →
        (rwWrite (rwExec RwState.init [REvent.read 1]) 2).1.queue =
          (rwExec RwState.init [REvent.read 1]).queue ++ [Item.wr 2]) ∧
      ((rwExec RwState.init [REvent.read 1]).running = false →
        (rwWrite (rwExec RwState.init [REvent.read 1]) 2).1.curItem =
          some (Item.wr 2)) ∧
      (∀ t, (rwExec (rwWrite (rwExec RwState.init [REvent.read 1]) 2).1
          [REvent.read 3]).tailFxList = some t →
        (rwExec RwState.init [REvent.read 1]).nextBatch ≤ t)) :=
  ⟨⟨[REvent.read 1], rfl⟩,
    rw_write_resets_batch _ ⟨[REvent.read 1], rfl⟩ 2 [REvent.read 3]⟩

/-- C5: Settling a read handler settles that caller's promise in the very
same step (it is the first observation of the step), records the outcome
immediately, and leaves every sibling batch member still mid-execution: a
read never waits for other reads of its batch. -/
theorem rw_read_settles_independently (s : RwState) (hs : RwReachable s)
    (h b : Nat) (ok : Bool) (v : Nat)
    (hx : pairLookup s.execReads h = some b) :
    (rwReadSettle s h ok v).2.head? =
      some (RObs.settledReadCaller h ok v) ∧
    (rwReadSettle s h ok v).1.settledReads =
      s.settledReads ++ [(h, ok, v)] ∧
    (∀ p ∈ s.execReads, p.1 ≠ h →
      p ∈ (rwReadSettle s h ok v).1.execReads) := by
  have hinv := rwReachable_inv s hs
  by_cases hz : s.remaining = 1
  · obtain ⟨hef, hh⟩ := rwReadSettle_zero_eq s hinv h b ok v hx hz
    refine ⟨hh, (rwReadSettle_zero_frame s hinv h b ok v hx hz).2.2, ?_⟩
    have hcur := execRead_cur s hinv h b hx
    have hrem := (hinv.batchLive b hcur).2.2.2.1
    have hlen : s.execReads.length = 1 := by omega
    have heq : s.execReads = [(h, b)] :=
      length_one_eq _ _ hlen (pairLookup_mem _ _ _ hx)
    intro p hp hne
    rw [heq] at hp
    simp at hp
    rw [hp] at hne
    simp at hne
  · obtain ⟨hef, hh⟩ := rwReadSettle_pos_eq s hinv.notCrashed h b ok v hx hz
    refine ⟨by simp [hh], by rw [hef], ?_⟩
    intro p hp hne
    rw [hef]
    exact pairErase_mem_of_ne _ _ _ hp hne

/-- C5 witness: two reads in one running batch; settling the second resolves
its caller at once while the first is still mid-execution. -/
theorem rw_read_settles_independently_witness :
    RwReachable (rwExec RwState.init [REvent.read 1, REvent.read 2]) ∧
    pairLookup (rwExec RwState.init
      [REvent.read 1, REvent.read 2]).execReads 2 = some 0 ∧
    ((rwReadSettle (rwExec RwState.init
        [REvent.read 1, REvent.read 2]) 2 true 8).2.head? =
      some (RObs.settledReadCaller 2 true 8) ∧
    (rwReadSettle (rwExec RwState.init
        [REvent.read 1, REvent.read 2]) 2 true 8).1.settledReads =
      (rwExec RwState.init
        [REvent.read 1, REvent.read 2]).settledReads ++ [(2, true, 8)] ∧
    (∀ p ∈ (rwExec RwState.init
        [REvent.read 1, REvent.read 2]).execReads, p.1 ≠ 2 →
      p ∈ (rwReadSettle (rwExec RwState.init
        [REvent.read 1, REvent.read 2]) 2 true 8).1.execReads)) :=
  ⟨⟨[REvent.read 1, REvent.read 2], rfl⟩, by decide,
    rw_read_settles_independently _ ⟨[REvent.read 1, REvent.read 2], rfl⟩
      2 0 true 8 (by decide)⟩

/-- C10 witness: instantiation at the freshly constructed machines. -/
theorem invariant_violations_abort_witness :
    MutexReachable MutexState.init ∧ RwReachable RwState.init ∧
    (MutexState.init.crashed = false ∧ RwState.init.crashed = false ∧
      (∀ u : MutexState, u.running = true → (mutexNext u).1.crashed = true) ∧
      (∀ u : RwState, u.running = true → (rwNext u).1.crashed = true) ∧
      (∀ u : RwState, u.batchDone = none →
        (invokeBatchDone u).1.crashed = true)) :=
  ⟨⟨[], rfl⟩, ⟨[], rfl⟩,
    invariant_violations_abort MutexState.init RwState.init ⟨[], rfl⟩ ⟨[], rfl⟩⟩

end RwlockPromise
